import Mathlib

/-!
Verification of the presence/session tracker and role-deadline escalation
engine of the shield-bot repository, shallowly embedded in Lean 4.

The embedding covers:
* the UTC calendar model backing the JS `Date` API calls used by
  `PatrolTimerManager.persistMonthly` (month-split across UTC boundaries);
* `PatrolTimerManager` state and its operations from `src/main.ts`
  (`startTracking`, `stopTrackingAndPersist`, `reset`, `adjustUserTime`,
  `pauseUser`, `pauseGuild`, `isUserPaused`, `isUserPausedOrOnLOA`,
  `checkLOAAndStartTracking`, startup session reload from `init`);
* `RoleTrackingManager` pieces from `src/managers/whitelist/userOperations.ts`
  (`hasReceivedWarning`, `recordWarningSent`, `removeWarningsForUser`,
  the per-member warning/staff-ping section of `checkAndSendWarnings`,
  `validateRoleTrackingConfig`) and `parseDurationToMs` from
  `src/utility/roleTracking/durationParser.ts`.

Timestamps are modelled as natural numbers of milliseconds since the Unix
epoch (all relevant timestamps are after 1970). Database tables are
association lists or functions with pointwise updates; asynchronous
external effects (DM delivery, channel send, leave-of-absence lookup) are
oracles passed as parameters.
-/

namespace ShieldBot

/-! ## UTC calendar model

The source calls the JS `Date` UTC accessors (`getUTCFullYear`,
`getUTCMonth`) and `Date.UTC(y, m, 1)`. JS dates use the proleptic
Gregorian calendar over milliseconds since the epoch. We model the
calendar for timestamps at or after 1970-01-01T00:00:00Z by the cumulative
month-start table `monthStartMs`, where index `k` counts calendar months
since January 1970. -/
def msPerDay : Nat := 86400000

/-- Gregorian leap year test. -/
def isLeap (y : Nat) : Bool :=
  (y % 4 == 0 && y % 100 != 0) || y % 400 == 0

/-- Days in month `m` (0-based, 0 = January) of year `y`. -/
def daysInMonth (y m : Nat) : Nat :=
  match m with
  | 0 => 31
  | 1 => if isLeap y then 29 else 28
  | 2 => 31
  | 3 => 30
  | 4 => 31
  | 5 => 30
  | 6 => 31
  | 7 => 31
  | 8 => 30
  | 9 => 31
  | 10 => 30
  | _ => 31

/-- Year (as calendar year) of month index `k` (months since 1970-01). -/
def yearOfIdx (k : Nat) : Nat := 1970 + k / 12

/-- 0-based month-in-year of month index `k`. -/
def monthOfIdx (k : Nat) : Nat := k % 12

/-- Length in ms of the month with index `k`. -/
def monthLen (k : Nat) : Nat := msPerDay * daysInMonth (yearOfIdx k) (monthOfIdx k)

/-- Millisecond timestamp of the first instant of month index `k`
(so `monthStartMs 0 = 0` is 1970-01-01T00:00:00Z). -/
def monthStartMs : Nat → Nat
  | 0 => 0
  | k + 1 => monthStartMs k + monthLen k

/-- Models `Date.UTC(y, m, 1)` for `y ≥ 1970` and `0 ≤ m ≤ 11`. -/
def dateUTCMonthStart (y m : Nat) : Nat := monthStartMs ((y - 1970) * 12 + m)

/-- Accumulator loop computing the month index of a timestamp: starting
from month `k` whose start is `acc`, advance while the next month still
starts at or before `t`. -/
def monthIdxAux (t : Nat) : Nat → Nat → Nat → Nat
  | _, k, 0 => k
  | acc, k, fuel + 1 =>
    if acc + monthLen k ≤ t then monthIdxAux t (acc + monthLen k) (k + 1) fuel else k

/-- The month index (months since 1970-01) containing timestamp `t`;
models the pair `getUTCFullYear`/`getUTCMonth` of a JS `Date` at `t ≥ 0`. -/
def monthIndexOf (t : Nat) : Nat :=
  monthIdxAux t 0 0 (t / (28 * msPerDay) + 1)

/-- Models the body `Date.UTC(m === 11 ? y + 1 : y, (m + 1) % 12, 1)` in
`persistMonthly`, with `y`/`m` the UTC year and 0-based month of `t`. -/
def nextMonthStart (t : Nat) : Nat :=
  let k := monthIndexOf t
  let y := yearOfIdx k
  let m := monthOfIdx k
  if m = 11 then dateUTCMonthStart (y + 1) 0 else dateUTCMonthStart y (m + 1)

/-- Body of the month-split loop of `PatrolTimerManager.persistMonthly`:
walk from `startMs`, cut at each UTC month boundary, and emit one
`(year, month 1..12, segment delta)` triple per strictly positive segment.
The loop in the source performs one `voicePatrolMonthlyTime` upsert per
emitted triple; applying the increments is factored out below. The `fuel`
argument makes the recursion structural; since every iteration advances
`startMs` by at least 1ms, `endMs - startMs` steps always suffice. -/
def monthSegAux (endMs : Nat) : Nat → Nat → List (Nat × Nat × Nat)
  | _, 0 => []
  | startMs, fuel + 1 =>
    if startMs < endMs then
      let k := monthIndexOf startMs
      let segEnd := min endMs (nextMonthStart startMs)
      let segDelta := segEnd - startMs
      (if 0 < segDelta then [(yearOfIdx k, monthOfIdx k + 1, segDelta)] else [])
        ++ monthSegAux endMs segEnd fuel
    else []

/-- The month-split of `persistMonthly` over `[startMs, endMs)`. -/
def monthSegments (startMs endMs : Nat) : List (Nat × Nat × Nat) :=
  monthSegAux endMs startMs (endMs - startMs)

/-- Sum of the per-month deltas emitted by the month-split loop. -/
def segSum (l : List (Nat × Nat × Nat)) : Nat :=
  (l.map (fun s => s.2.2)).sum

/-! ## PatrolTimerManager state

`src/main.ts`: `tracked` is `guildId => Map<userId, TrackedUser>`
(in-memory), `activeVoicePatrolSession` is the persisted crash-recovery
table, `voicePatrolTime` holds the all-time totals, and
`voicePatrolMonthlyTime` the per-UTC-month buckets. The pause sets are
in-memory only. Database tables with enumerable rows are association
lists; the all-time total store, which is only read and written
pointwise, is a function with default 0 for a missing row. -/
/-- `TrackedUser` without the redundant `userId` key field. -/
structure Session where
  channelId : String
  startedAt : Nat
  deriving DecidableEq, Repr

/-- Row of the persisted `activeVoicePatrolSession` table. -/
structure ActiveRow where
  guildId : String
  userId : String
  sess : Session
  deriving DecidableEq, Repr

/-- Row of the `voicePatrolMonthlyTime` table (month is 1..12). -/
structure MonthlyRow where
  guildId : String
  userId : String
  year : Nat
  month : Nat
  totalMs : Nat
  deriving DecidableEq, Repr

/-- JS `Map.get` on a per-guild member map. -/
def mapGet (u : String) (l : List (String × Session)) : Option Session :=
  (l.find? (fun p => p.1 == u)).map (fun p => p.2)

/-- JS `Map.delete`. -/
def mapErase (u : String) (l : List (String × Session)) : List (String × Session) :=
  l.filter (fun p => !(p.1 == u))

/-- JS `Map.set` (overwrite). -/
def mapSet (u : String) (s : Session) (l : List (String × Session)) :
    List (String × Session) :=
  (u, s) :: mapErase u l

/-- `activeVoicePatrolSession.findMany`-style single-row lookup by the
unique `(guildId, userId)` key. -/
def sessFind (tbl : List ActiveRow) (g u : String) : Option Session :=
  (tbl.find? (fun r => r.guildId == g && r.userId == u)).map (fun r => r.sess)

/-- `activeVoicePatrolSession.deleteMany({guildId, userId})`. -/
def sessDelete (tbl : List ActiveRow) (g u : String) : List ActiveRow :=
  tbl.filter (fun r => !(r.guildId == g && r.userId == u))

/-- `activeVoicePatrolSession.deleteMany({guildId})`. -/
def sessDeleteGuild (tbl : List ActiveRow) (g : String) : List ActiveRow :=
  tbl.filter (fun r => !(r.guildId == g))

/-- `activeVoicePatrolSession.upsert` writing both `channelId` and
`startedAt` (the update and create branches in `startTracking` write the
same full session). -/
def sessSet (tbl : List ActiveRow) (g u : String) (s : Session) : List ActiveRow :=
  ⟨g, u, s⟩ :: sessDelete tbl g u

/-- The unique `(guildId, userId, year, month)` key of the
`voicePatrolMonthlyTime` table. -/
def monthKey (g u : String) (y m : Nat) (r : MonthlyRow) : Bool :=
  r.guildId == g && r.userId == u && r.year == y && r.month == m

/-- The `(guildId, userId)` restriction used by per-subject queries. -/
def guKey (g u : String) (r : MonthlyRow) : Bool :=
  r.guildId == g && r.userId == u

/-- `voicePatrolMonthlyTime.upsert` with `increment` semantics, as in
`persistMonthly`. -/
def monthIncr (tbl : List MonthlyRow) (g u : String) (y m d : Nat) : List MonthlyRow :=
  if tbl.any (monthKey g u y m)
  then tbl.map (fun r => if monthKey g u y m r then { r with totalMs := r.totalMs + d } else r)
  else tbl ++ [⟨g, u, y, m, d⟩]

/-- `voicePatrolMonthlyTime.upsert` with absolute-set semantics, as in
`adjustUserTime`. -/
def monthSet (tbl : List MonthlyRow) (g u : String) (y m v : Nat) : List MonthlyRow :=
  if tbl.any (monthKey g u y m)
  then tbl.map (fun r => if monthKey g u y m r then { r with totalMs := v } else r)
  else tbl ++ [⟨g, u, y, m, v⟩]

/-- `voicePatrolMonthlyTime.findUnique(...)?.totalMs ?? 0`. -/
def monthGet (tbl : List MonthlyRow) (g u : String) (y m : Nat) : Nat :=
  ((tbl.find? (monthKey g u y m)).map (fun r => r.totalMs)).getD 0

/-- Sum of the monthly buckets of one subject over all months. -/
def sumMonthly (tbl : List MonthlyRow) (g u : String) : Nat :=
  ((tbl.filter (guKey g u)).map (fun r => r.totalMs)).sum

/-- The uniqueness guarantee of the `guildId_userId_year_month` unique
index on `voicePatrolMonthlyTime`. -/
def MonthlyOK (tbl : List MonthlyRow) : Prop :=
  ∀ g u y m, (tbl.filter (monthKey g u y m)).length ≤ 1

/-- Pointwise update of a `(guildId, userId)`-keyed store. -/
def updGU {α : Type} (f : String → String → α) (g u : String) (v : α) :
    String → String → α :=
  fun g' u' => if g' = g ∧ u' = u then v else f g' u'

/-- The in-memory and persisted state owned by `PatrolTimerManager`. -/
structure St where
  tracked : String → List (String × Session)
  active : List ActiveRow
  total : String → String → Nat
  monthly : List MonthlyRow
  pausedUsers : String → String → Bool
  pausedGuilds : String → Bool

/-- Result of the external `loaManager.getActiveLOA` call: `Except.error`
models the lookup throwing, `Except.ok none` no active leave,
`Except.ok (some ())` an active leave. -/
def LOALookup : Type := Except Unit (Option Unit)

/-- `PatrolTimerManager.isUserPaused`: manual pause, individually or
guild-wide. -/
def isUserPaused (st : St) (g u : String) : Bool :=
  st.pausedGuilds g || st.pausedUsers g u

/-- `PatrolTimerManager.isUserPausedOrOnLOA`: manual pause first, then the
leave lookup; a throwing lookup is caught and treated as not paused
(fail-open). -/
def isUserPausedOrOnLOA (st : St) (g u : String) (lk : LOALookup) : Bool :=
  if isUserPaused st g u then true
  else
    match lk with
    | .ok loa => loa.isSome
    | .error _ => false

/-- `PatrolTimerManager.startTracking`. The bot check and the
first-writer-wins check on the in-memory map precede any effect; a new
session is recorded in memory and persisted. -/
def startTracking (st : St) (g u cid : String) (now : Nat) (isBot : Bool) : St :=
  if isBot then st
  else
    match mapGet u (st.tracked g) with
    | some _ => st
    | none =>
      let s : Session := ⟨cid, now⟩
      { st with
        tracked := Function.update st.tracked g (mapSet u s (st.tracked g))
        active := sessSet st.active g u s }

/-- `PatrolTimerManager.stopTrackingAndPersist`. The in-memory session is
removed first; the session of a suspended subject is discarded (persisted
record deleted, no ledger effect); a delta under 3000ms returns early
(note: before the persisted-record delete); otherwise the persisted
record is deleted, the all-time total incremented, and the monthly
buckets credited via the month-split. The completion log, DM
notification and promotion check that follow have no ledger effect and
are omitted. -/
def stopTrackingAndPersist (st : St) (g u : String) (now : Nat) (lk : LOALookup) : St :=
  match mapGet u (st.tracked g) with
  | none => st
  | some tr =>
    let st1 := { st with tracked := Function.update st.tracked g (mapErase u (st.tracked g)) }
    if isUserPausedOrOnLOA st1 g u lk then
      { st1 with active := sessDelete st1.active g u }
    else
      let delta := now - tr.startedAt
      if delta < 3000 then st1
      else
        let st2 := { st1 with active := sessDelete st1.active g u }
        let st3 := { st2 with total := updGU st2.total g u (st2.total g u + delta) }
        { st3 with
          monthly := (monthSegments tr.startedAt now).foldl
            (fun tbl s => monthIncr tbl g u s.1 s.2.1 s.2.2) st3.monthly }

/-- `PatrolTimerManager.reset`. With a user: zero the all-time total of that subject, then
delete the persisted session and rebase a live session to `now`.
Without: the same for every subject of the guild. The monthly table is
not touched in either branch. -/
def reset (st : St) (g : String) (userId : Option String) (now : Nat) : St :=
  match userId with
  | some u =>
    let st1 := { st with
      total := updGU st.total g u 0
      active := sessDelete st.active g u }
    match mapGet u (st1.tracked g) with
    | some tr =>
      let trackedG := mapSet u ({ tr with startedAt := now }) (st1.tracked g)
      { st1 with tracked := Function.update st1.tracked g trackedG }
    | none => st1
  | none =>
    { st with
      total := fun g' u' => if g' = g then 0 else st.total g' u'
      active := sessDeleteGuild st.active g
      tracked := Function.update st.tracked g
        ((st.tracked g).map (fun p => (p.1, { p.2 with startedAt := now }))) }

/-- `PatrolTimerManager.adjustUserTime`: clamp-at-zero adjustment applied
to the all-time total and to the targeted month bucket, each clamped
independently; the target defaults to the current UTC month of `now`. -/
def adjustUserTime (st : St) (g u : String) (deltaMs : Int)
    (year month : Option Nat) (now : Nat) : St :=
  let targetYear := year.getD (yearOfIdx (monthIndexOf now))
  let targetMonth := month.getD (monthOfIdx (monthIndexOf now) + 1)
  let currentTotal := st.total g u
  let newTotal := (max 0 ((currentTotal : Int) + deltaMs)).toNat
  let currentMonthTotal := monthGet st.monthly g u targetYear targetMonth
  let newMonthTotal := (max 0 ((currentMonthTotal : Int) + deltaMs)).toNat
  { st with
    total := updGU st.total g u newTotal
    monthly := monthSet st.monthly g u targetYear targetMonth newMonthTotal }

/-- `PatrolTimerManager.pauseUser`: refused while the subject has an
active timer. -/
def pauseUser (st : St) (g u : String) : St × Bool :=
  match mapGet u (st.tracked g) with
  | some _ => (st, false)
  | none => ({ st with pausedUsers := updGU st.pausedUsers g u true }, true)

/-- `PatrolTimerManager.unpauseUser`: clear the flag and rebase a live
session to `now`. -/
def unpauseUser (st : St) (g u : String) (now : Nat) : St :=
  let st1 := { st with pausedUsers := updGU st.pausedUsers g u false }
  match mapGet u (st1.tracked g) with
  | some tr =>
    let trackedG := mapSet u ({ tr with startedAt := now }) (st1.tracked g)
    { st1 with tracked := Function.update st1.tracked g trackedG }
  | none => st1

/-- `PatrolTimerManager.pauseGuild`: refused while any subject of the
guild has an active timer. -/
def pauseGuild (st : St) (g : String) : St × Bool :=
  if !(st.tracked g).isEmpty then (st, false)
  else ({ st with pausedGuilds := Function.update st.pausedGuilds g true }, true)

/-- `PatrolTimerManager.checkLOAAndStartTracking`, as run on zone-entry.
The manual-pause check is synchronous; the raw `getActiveLOA` call is not
wrapped in a try/catch here, so a throwing lookup propagates to the
`.catch` at the call site in `handleVoiceStateUpdate`, which only logs:
no session is started. On an active leave, staff and the subject are
notified (no tracking state change); otherwise tracking starts. Bots were
already filtered by the caller. -/
def checkLOAAndStartTracking (st : St) (g u cid : String) (now : Nat)
    (lk : LOALookup) : St :=
  if isUserPaused st g u then st
  else
    match lk with
    | .error _ => st
    | .ok (some _) => st
    | .ok none => startTracking st g u cid now false

/-- The per-guild member map built by `init` from the persisted
`activeVoicePatrolSession` rows (rows are unique per `(guildId, userId)`;
the loop stores each row under its user key). -/
def guildRows (tbl : List ActiveRow) (g : String) : List (String × Session) :=
  tbl.filterMap (fun r => if r.guildId == g then some (r.userId, r.sess) else none)

/-- Process restart: `init` reloads the tracked maps from the persisted
session table; persisted ledger tables survive; the in-memory pause state
is lost. -/
def restartState (st : St) : St :=
  { st with
    tracked := fun g => guildRows st.active g
    pausedUsers := fun _ _ => false
    pausedGuilds := fun _ => false }

/-- The cross-table invariant claimed in the data model: per-subject
monthly buckets sum to the all-time total, with the unique-index guarantee
on the monthly table. -/
def LedgerInv (st : St) : Prop :=
  MonthlyOK st.monthly ∧ ∀ g u, sumMonthly st.monthly g u = st.total g u

/-- Ledger-relevant public operations: session finalize, nonnegative
administrative adjustment (the delta is a `Nat` cast into the signed
argument of `adjustUserTime`), and session start. -/
inductive LedgerOp where
  | finalize (g u : String) (now : Nat) (lk : LOALookup)
  | adjust (g u : String) (d : Nat) (year month : Option Nat) (now : Nat)
  | enter (g u cid : String) (now : Nat) (isBot : Bool)

def applyOp (st : St) : LedgerOp → St
  | .finalize g u now lk => stopTrackingAndPersist st g u now lk
  | .adjust g u d year month now => adjustUserTime st g u (d : Int) year month now
  | .enter g u cid now isBot => startTracking st g u cid now isBot

def applyOps (st : St) (ops : List LedgerOp) : St :=
  ops.foldl applyOp st

/-- Fresh deployment: no sessions, empty tables, nothing paused. -/
def emptySt : St :=
  { tracked := fun _ => []
    active := []
    total := fun _ _ => 0
    monthly := []
    pausedUsers := fun _ _ => false
    pausedGuilds := fun _ => false }

/-- A state with one open session for subject "u" of group "g", started at
the epoch in zone "c". -/
def stDemo : St := startTracking emptySt "g" "u" "c" 0 false

/-- `stDemo` finalized at `t = 100000` (credits 100000ms), then reset for
the subject. -/
def stC3reset : St :=
  reset (stopTrackingAndPersist stDemo "g" "u" 100000 (Except.ok none)) "g" (some "u") 100000

/-! ## DurationCodec: `parseDurationToMs`
(`src/utility/roleTracking/durationParser.ts`)

The JS code normalizes with `trim().toLowerCase()` and matches anchored
regexes `^(\\d+)\\s*(unit)$` for week/day/month/year units. The
equivalent normalization and split are modelled on character lists. -/
def jsWhitespace (c : Char) : Bool :=
  c == ' ' || c == '\t' || c == '\n' || c == '\r'

def toLowerChar (c : Char) : Char :=
  if 65 ≤ c.toNat ∧ c.toNat ≤ 90 then Char.ofNat (c.toNat + 32) else c

def isDigitChar (c : Char) : Bool :=
  48 ≤ c.toNat && c.toNat ≤ 57

/-- `parseInt` on a nonempty digit string (no precision loss modelled). -/
def digitsVal (l : List Char) : Nat :=
  l.foldl (fun a c => a * 10 + (c.toNat - 48)) 0

def trimChars (l : List Char) : List Char :=
  ((l.dropWhile jsWhitespace).reverse.dropWhile jsWhitespace).reverse

/-- `parseDurationToMs`: `null` is `none`; a zero value is rejected. -/
def parseDurationToMs (s : String) : Option Nat :=
  let cs := (trimChars s.data).map toLowerChar
  let digits := cs.takeWhile isDigitChar
  let rest := (cs.dropWhile isDigitChar).dropWhile jsWhitespace
  if digits.isEmpty then none
  else
    let mult : Option Nat :=
      if rest = "week".data ∨ rest = "weeks".data ∨ rest = "w".data then
        some (7 * 24 * 60 * 60 * 1000)
      else if rest = "day".data ∨ rest = "days".data ∨ rest = "d".data then
        some (24 * 60 * 60 * 1000)
      else if rest = "month".data ∨ rest = "months".data ∨ rest = "mo".data then
        some (30 * 24 * 60 * 60 * 1000)
      else if rest = "year".data ∨ rest = "years".data ∨ rest = "y".data then
        some (365 * 24 * 60 * 60 * 1000)
      else none
    match mult with
    | none => none
    | some m =>
      let value := digitsVal digits
      if value = 0 then none else some (value * m)

def isValidDuration (s : String) : Bool :=
  (parseDurationToMs s).isSome

/-! ## RoleTrackingManager: configuration validation
(`validateRoleTrackingConfig` in `userOperations.ts`)

Presentation-only fields (message templates, channel overrides) are not
modelled; `patrolTimeThresholdHours` is an integer since validation only
inspects its sign and presence. -/
structure WarningCfg where
  index : Int
  offset : String
  message : String
  deriving DecidableEq, Repr

structure RoleTrackingConfig where
  enabled : Bool
  roleName : String
  deadlineDuration : String
  conditions : Option (List String)
  patrolTimeThresholdHours : Option Int
  warnings : List WarningCfg
  staffPingOffset : String
  deriving DecidableEq, Repr

structure ValidationResult where
  valid : Bool
  errors : List String
  deriving DecidableEq, Repr

/-- Condition-set errors: unknown condition names in order, then the
PATROL-without-threshold check; an absent or empty set is valid. -/
def condErrors (cfg : RoleTrackingConfig) : List String :=
  match cfg.conditions with
  | none => []
  | some conds =>
    if conds.isEmpty then []
    else
      (conds.filterMap (fun c =>
        if c = "PATROL" ∨ c = "TIME" then none
        else some ("Invalid condition: \"" ++ c ++ "\". Must be one of: PATROL, TIME")))
      ++ (if conds.contains "PATROL" ∧ cfg.patrolTimeThresholdHours = none then
            ["patrolTimeThresholdHours must be set when using PATROL condition"]
          else [])

def deadlineErrors (cfg : RoleTrackingConfig) : List String :=
  (if ¬ isValidDuration cfg.deadlineDuration then
    ["Invalid deadlineDuration: \"" ++ cfg.deadlineDuration ++ "\""]
  else [])
  ++ (if parseDurationToMs cfg.deadlineDuration = none then
    ["Could not parse deadlineDuration: \"" ++ cfg.deadlineDuration ++ "\""]
  else [])

def staffOffsetErrors (cfg : RoleTrackingConfig) : List String :=
  (if ¬ isValidDuration cfg.staffPingOffset then
    ["Invalid staffPingOffset: \"" ++ cfg.staffPingOffset ++ "\""]
  else [])
  ++ (if parseDurationToMs cfg.staffPingOffset = none then
    ["Could not parse staffPingOffset: \"" ++ cfg.staffPingOffset ++ "\""]
  else [])

def thresholdErrors (cfg : RoleTrackingConfig) : List String :=
  match cfg.patrolTimeThresholdHours with
  | some t => if t < 0 then ["patrolTimeThresholdHours must be a positive number"] else []
  | none => []

/-- Per-warning errors at array position `i`: offset validity, offset
versus deadline, and index-matches-position. -/
def warnEntryErrors (cfg : RoleTrackingConfig) (i : Nat) (w : WarningCfg) : List String :=
  (if ¬ isValidDuration w.offset then
    ["Invalid warning offset at index " ++ toString i ++ ": \"" ++ w.offset ++ "\""]
  else
    match parseDurationToMs w.offset, parseDurationToMs cfg.deadlineDuration with
    | some off, some dl =>
      if dl < off then
        ["Warning offset \"" ++ w.offset ++ "\" at index " ++ toString i
          ++ " exceeds deadlineDuration \"" ++ cfg.deadlineDuration ++ "\""]
      else []
    | _, _ => [])
  ++ (if w.index ≠ (i : Int) then
      ["Warning index " ++ toString w.index ++ " at array position " ++ toString i
        ++ " does not match"]
    else [])

def warnListErrors (cfg : RoleTrackingConfig) : List String :=
  (cfg.warnings.enum.map (fun p => warnEntryErrors cfg p.1 p.2)).flatten

/-- Offsets of the warnings whose duration parses, in order (the
`warningOffsets` array of the source). -/
def warningOffsets (cfg : RoleTrackingConfig) : List Nat :=
  cfg.warnings.filterMap (fun w => parseDurationToMs w.offset)

/-- Ascending-order scan: an error for every adjacent strictly descending
pair, with the positions in the offsets array. -/
def ascErrAux : Nat → List Nat → List String
  | _, [] => []
  | _, [_] => []
  | i, a :: b :: rest =>
    (if b < a then
      ["Warning offsets must be in ascending order. Offset at index " ++ toString (i + 1)
        ++ " is before offset at index " ++ toString i]
    else [])
    ++ ascErrAux (i + 1) (b :: rest)

def ascendErrors (cfg : RoleTrackingConfig) : List String :=
  ascErrAux 0 (warningOffsets cfg)

def staffVsDeadlineErrors (cfg : RoleTrackingConfig) : List String :=
  match parseDurationToMs cfg.deadlineDuration, parseDurationToMs cfg.staffPingOffset with
  | some dl, some sp =>
    if dl < sp then
      ["staffPingOffset \"" ++ cfg.staffPingOffset ++ "\" exceeds deadlineDuration \""
        ++ cfg.deadlineDuration ++ "\""]
    else []
  | _, _ => []

/-- `validateRoleTrackingConfig`: pure accumulation of the error list in
source order; `valid` iff no error. Nothing is persisted by validation. -/
def validateRoleTrackingConfig (cfg : RoleTrackingConfig) : ValidationResult :=
  let errors := condErrors cfg ++ deadlineErrors cfg ++ staffOffsetErrors cfg
    ++ thresholdErrors cfg ++ warnListErrors cfg ++ ascendErrors cfg
    ++ staffVsDeadlineErrors cfg
  { valid := errors.isEmpty, errors := errors }

/-! ## RoleTrackingManager: warning store and sweep

`roleTrackingWarning` rows; `User`-table id resolution is modelled as the
identity (the sweep skips members whose id cannot be resolved before any
warning processing). Delivery outcomes are oracles: `dmOk i` is whether
the DM for warning index `i` would succeed, `staffOk` whether the staff
channel send would succeed. -/
structure WarningRow where
  guildId : String
  userId : String
  roleId : String
  warningType : String
  warningIndex : Int
  sentAt : Nat
  roleAssignedAt : Nat
  assignmentTrackingId : Option Nat
  deriving DecidableEq, Repr

/-- JS truthiness of the optional assignment tracking id. -/
def truthyId : Option Nat → Bool
  | none => false
  | some n => n != 0

/-- `hasReceivedWarning`: dedup lookup by assignment id when one is given
(and truthy), falling back to the assignment timestamp for legacy rows. -/
def hasReceivedWarning (rows : List WarningRow) (g u r : String) (idx : Int)
    (assignedAt : Nat) (atid : Option Nat) : Bool :=
  if truthyId atid then
    rows.any (fun w => w.guildId == g && w.userId == u && w.roleId == r
      && w.warningIndex == idx && w.assignmentTrackingId == atid)
  else
    rows.any (fun w => w.guildId == g && w.userId == u && w.roleId == r
      && w.warningIndex == idx && w.roleAssignedAt == assignedAt)

/-- `recordWarningSent` (`assignmentTrackingId: assignmentTrackingId || null`). -/
def recordWarningSent (rows : List WarningRow) (g u r : String) (wtype : String)
    (idx : Int) (sentAt assignedAt : Nat) (atid : Option Nat) : List WarningRow :=
  rows ++ [⟨g, u, r, wtype, idx, sentAt, assignedAt,
    if truthyId atid then atid else none⟩]

/-- `removeWarningsForUser`: delete by (guild, user, role), restricted to
the assignment id when one is given. -/
def removeWarningsForUser (rows : List WarningRow) (g u r : String)
    (atid : Option Nat) : List WarningRow :=
  if truthyId atid then
    rows.filter (fun w => !(w.guildId == g && w.userId == u && w.roleId == r
      && w.assignmentTrackingId == atid))
  else
    rows.filter (fun w => !(w.guildId == g && w.userId == u && w.roleId == r))

/-- The per-warning loop of `checkAndSendWarnings`: for each configured
warning whose offset parses and has elapsed and whose dedup guard finds no
row, attempt the DM and record the row only on success; a staff-log embed
(no row) is written either way. Returns the store and the warning indexes
attempted. -/
def warnLoop (g u r : String) (assignedAt : Nat) (atid : Option Nat)
    (timeSince : Nat) (now : Nat) (dmOk : Int → Bool) :
    List WarningCfg → List WarningRow → List WarningRow × List Int
  | [], rows => (rows, [])
  | w :: ws, rows =>
    match parseDurationToMs w.offset with
    | none => warnLoop g u r assignedAt atid timeSince now dmOk ws rows
    | some offMs =>
      if offMs ≤ timeSince then
        if hasReceivedWarning rows g u r w.index assignedAt atid then
          warnLoop g u r assignedAt atid timeSince now dmOk ws rows
        else
          let rows1 := if dmOk w.index then
            recordWarningSent rows g u r "warning" w.index now assignedAt atid
          else rows
          let rec1 := warnLoop g u r assignedAt atid timeSince now dmOk ws rows1
          (rec1.1, w.index :: rec1.2)
      else warnLoop g u r assignedAt atid timeSince now dmOk ws rows

/-- The per-(member, role) body of the sweep `checkAndSendWarnings`:
no-conditions and unparseable-deadline early exits, grace reset when the
PATROL threshold is met (warnings removed, rest of the cycle skipped),
the warning loop, then the terminal staff escalation, whose sentinel `-1`
row is recorded after the channel send regardless of the send outcome.
Returns (store, attempted warning indexes, whether the escalation was
sent). -/
def sweepStep (cfg : RoleTrackingConfig) (g u r : String) (assignedAt : Nat)
    (atid : Option Nat) (now : Nat) (patrolMet : Bool) (dmOk : Int → Bool)
    (staffOk : Bool) (rows : List WarningRow) :
    List WarningRow × List Int × Bool :=
  let activeConditions := cfg.conditions.getD []
  if activeConditions.isEmpty then (rows, [], false)
  else
    match parseDurationToMs cfg.deadlineDuration with
    | none => (rows, [], false)
    | some _deadlineMs =>
      let hasPatrolCondition := activeConditions.contains "PATROL"
      let timeSince := now - assignedAt
      let thresholdMet := hasPatrolCondition && patrolMet
      let rows1 := if thresholdMet then removeWarningsForUser rows g u r atid else rows
      let step2 := if thresholdMet then (rows1, ([] : List Int))
        else warnLoop g u r assignedAt atid timeSince now dmOk cfg.warnings rows1
      let rows2 := step2.1
      let sent := step2.2
      if !thresholdMet then
        match parseDurationToMs cfg.staffPingOffset with
        | some spo =>
          if spo ≤ timeSince then
            if hasReceivedWarning rows2 g u r (-1) assignedAt atid then
              (rows2, sent, false)
            else
              (recordWarningSent rows2 g u r "staff_ping" (-1) now assignedAt atid,
                sent, true)
          else (rows2, sent, false)
        | none => (rows2, sent, false)
      else (rows2, sent, false)

/-- Dedup criterion actually used by `hasReceivedWarning` for a given
assignment: by id when truthy, else by assignment timestamp. -/
def warnGuard (g u r : String) (idx : Int) (assignedAt : Nat) (atid : Option Nat)
    (w : WarningRow) : Bool :=
  if truthyId atid then
    w.guildId == g && w.userId == u && w.roleId == r
      && w.warningIndex == idx && w.assignmentTrackingId == atid
  else
    w.guildId == g && w.userId == u && w.roleId == r
      && w.warningIndex == idx && w.roleAssignedAt == assignedAt

/-- Dedup key of a row that carries an assignment tracking id. -/
def keyId (g u r : String) (idx : Int) (a : Nat) (w : WarningRow) : Bool :=
  w.guildId == g && w.userId == u && w.roleId == r && w.warningIndex == idx
    && w.assignmentTrackingId == some a

/-- Dedup key of a legacy row without an assignment tracking id, scoped by
the assignment timestamp. -/
def keyNull (g u r : String) (idx : Int) (ts : Nat) (w : WarningRow) : Bool :=
  w.guildId == g && w.userId == u && w.roleId == r && w.warningIndex == idx
    && w.assignmentTrackingId == none && w.roleAssignedAt == ts

/-- At-most-one row per warning-dedup key: per (guild, user, role, index,
assignment id) for rows carrying an id, and per (guild, user, role, index,
assignment timestamp) for legacy rows without one. -/
def WarnOK (rows : List WarningRow) : Prop :=
  (∀ g u r idx a, (rows.filter (keyId g u r idx a)).length ≤ 1)
  ∧ (∀ g u r idx ts, (rows.filter (keyNull g u r idx ts)).length ≤ 1)

/-- Delivery oracle where every DM fails. -/
def dmFailAll : Int → Bool := fun _ => false

/-- A concrete enabled TIME config: two-week deadline, one warning at one
week, staff ping at one week. -/
def cfgC2 : RoleTrackingConfig :=
  { enabled := true
    roleName := "Officer"
    deadlineDuration := "2 weeks"
    conditions := some ["TIME"]
    patrolTimeThresholdHours := none
    warnings := [⟨0, "1 week", "warning message"⟩]
    staffPingOffset := "1 week" }

/-- A config exhibiting none of the four defects named by the claim, yet
rejected: the staff-ping offset does not parse. -/
def cfgC7bad : RoleTrackingConfig :=
  { enabled := true
    roleName := "Officer"
    deadlineDuration := "2 weeks"
    conditions := some ["TIME"]
    patrolTimeThresholdHours := none
    warnings := []
    staffPingOffset := "bogus" }

/-- A fully well-formed config. -/
def cfgC7good : RoleTrackingConfig :=
  { enabled := true
    roleName := "Officer"
    deadlineDuration := "2 weeks"
    conditions := some ["TIME"]
    patrolTimeThresholdHours := none
    warnings := [⟨0, "1 week", "warning message"⟩]
    staffPingOffset := "1 week" }

theorem daysInMonth_pos (y m : Nat) : 28 ≤ daysInMonth y m := by
  unfold daysInMonth
  split <;> first
    | omega
    | (split <;> omega)

theorem monthLen_lb (k : Nat) : 28 * msPerDay ≤ monthLen k := by
  have h := daysInMonth_pos (yearOfIdx k) (monthOfIdx k)
  unfold monthLen msPerDay at *
  omega

theorem monthLen_pos (k : Nat) : 0 < monthLen k := by
  have := monthLen_lb k
  unfold msPerDay at this
  omega

theorem monthStartMs_lt_succ (k : Nat) : monthStartMs k < monthStartMs (k + 1) := by
  have := monthLen_pos k
  simp only [monthStartMs]
  omega

theorem monthStartMs_lb (k : Nat) : 28 * msPerDay * k ≤ monthStartMs k := by
  induction k with
  | zero => simp [monthStartMs]
  | succ n ih =>
    have := monthLen_lb n
    simp only [monthStartMs]
    nlinarith

theorem monthIdxAux_spec (t : Nat) :
    ∀ fuel k acc, acc = monthStartMs k → acc ≤ t →
    t < monthStartMs (k + fuel) →
    monthStartMs (monthIdxAux t acc k fuel) ≤ t ∧
      t < monthStartMs (monthIdxAux t acc k fuel + 1) := by
  intro fuel
  induction fuel with
  | zero =>
    intro k acc hacc hle hlt
    simp only [Nat.add_zero] at hlt
    simp only [monthIdxAux]
    omega
  | succ n ih =>
    intro k acc hacc hle hlt
    simp only [monthIdxAux]
    split
    · have hnext : acc + monthLen k = monthStartMs (k + 1) := by
        simp only [monthStartMs]; omega
      refine ih (k + 1) (acc + monthLen k) hnext (by omega) ?_
      have heq : k + 1 + n = k + (n + 1) := by omega
      rw [heq]; exact hlt
    · constructor
      · omega
      · have hnext : acc + monthLen k = monthStartMs (k + 1) := by
          simp only [monthStartMs]; omega
        omega

theorem monthIndexOf_spec (t : Nat) :
    monthStartMs (monthIndexOf t) ≤ t ∧ t < monthStartMs (monthIndexOf t + 1) := by
  refine monthIdxAux_spec t (t / (28 * msPerDay) + 1) 0 0 rfl (by omega) ?_
  have hlb := monthStartMs_lb (t / (28 * msPerDay) + 1)
  have hdiv := Nat.div_add_mod t (28 * msPerDay)
  have hmod : t % (28 * msPerDay) < 28 * msPerDay :=
    Nat.mod_lt _ (by unfold msPerDay; omega)
  simp only [Nat.zero_add]
  nlinarith

theorem nextMonthStart_eq (t : Nat) :
    nextMonthStart t = monthStartMs (monthIndexOf t + 1) := by
  have hgen : ∀ k : Nat,
      (if monthOfIdx k = 11
        then dateUTCMonthStart (yearOfIdx k + 1) 0
        else dateUTCMonthStart (yearOfIdx k) (monthOfIdx k + 1))
      = monthStartMs (k + 1) := by
    intro k
    unfold dateUTCMonthStart yearOfIdx monthOfIdx
    split <;> (refine congrArg monthStartMs ?_; omega)
  show (if monthOfIdx (monthIndexOf t) = 11
      then dateUTCMonthStart (yearOfIdx (monthIndexOf t) + 1) 0
      else dateUTCMonthStart (yearOfIdx (monthIndexOf t)) (monthOfIdx (monthIndexOf t) + 1))
    = monthStartMs (monthIndexOf t + 1)
  exact hgen (monthIndexOf t)

theorem nextMonthStart_gt (t : Nat) : t < nextMonthStart t := by
  rw [nextMonthStart_eq]
  exact (monthIndexOf_spec t).2

theorem monthSegAux_sum (endMs : Nat) :
    ∀ fuel startMs, endMs - startMs ≤ fuel →
    segSum (monthSegAux endMs startMs fuel) = endMs - startMs := by
  intro fuel
  induction fuel with
  | zero =>
    intro startMs hf
    simp only [monthSegAux, segSum, List.map_nil, List.sum_nil]
    omega
  | succ n ih =>
    intro startMs hf
    simp only [monthSegAux]
    split
    · rename_i h
      have hlt := nextMonthStart_gt startMs
      have hmin : startMs < min endMs (nextMonthStart startMs) := by
        simp only [lt_min_iff]; omega
      have hminle : min endMs (nextMonthStart startMs) ≤ endMs := Nat.min_le_left _ _
      have hrec := ih (min endMs (nextMonthStart startMs)) (by omega)
      split
      · simp only [segSum, List.map_append, List.sum_append, List.map_cons,
          List.sum_cons, List.map_nil, List.sum_nil] at hrec ⊢
        omega
      · omega
    · rename_i h
      simp only [segSum, List.map_nil, List.sum_nil]
      omega

/-- The month-split segments always sum to exactly the elapsed delta
(with truncated subtraction covering the degenerate `endMs ≤ startMs`
case, where the loop body never runs). -/
theorem monthSegments_sum (startMs endMs : Nat) :
    segSum (monthSegments startMs endMs) = endMs - startMs :=
  monthSegAux_sum endMs (endMs - startMs) startMs (Nat.le_refl _)

/-! ## Ledger bookkeeping lemmas -/
theorem bool_eq_false_of (b : Bool) (h : b = true → False) : b = false := by
  cases b
  · rfl
  · exact absurd rfl h

theorem monthKey_eq {g u : String} {y m : Nat} {r : MonthlyRow} :
    monthKey g u y m r = true ↔
      r.guildId = g ∧ r.userId = u ∧ r.year = y ∧ r.month = m := by
  simp [monthKey, and_assoc]

theorem guKey_eq {g u : String} {r : MonthlyRow} :
    guKey g u r = true ↔ r.guildId = g ∧ r.userId = u := by
  simp [guKey]

theorem monthKey_imp_gu {g u : String} {y m : Nat} {r : MonthlyRow}
    (h : monthKey g u y m r = true) : guKey g u r = true := by
  obtain ⟨h1, h2, _, _⟩ := monthKey_eq.mp h
  exact guKey_eq.mpr ⟨h1, h2⟩

theorem sumMonthly_cons (r : MonthlyRow) (t : List MonthlyRow) (g u : String) :
    sumMonthly (r :: t) g u
      = (if guKey g u r then r.totalMs else 0) + sumMonthly t g u := by
  simp only [sumMonthly, List.filter_cons]
  split <;> simp

theorem sumMonthly_append (a b : List MonthlyRow) (g u : String) :
    sumMonthly (a ++ b) g u = sumMonthly a g u + sumMonthly b g u := by
  simp [sumMonthly, List.filter_append]

theorem guKey_upd {g u : String} {r : MonthlyRow} {x : Nat} :
    guKey g u { r with totalMs := x } = guKey g u r := rfl

theorem monthKey_upd {g u : String} {y m : Nat} {r : MonthlyRow} {x : Nat} :
    monthKey g u y m { r with totalMs := x } = monthKey g u y m r := rfl

theorem sumMonthly_map_incr (g u : String) (y m d : Nat) (tbl : List MonthlyRow) :
    sumMonthly (tbl.map (fun r =>
        if monthKey g u y m r then { r with totalMs := r.totalMs + d } else r)) g u
      = sumMonthly tbl g u + d * tbl.countP (monthKey g u y m) := by
  induction tbl with
  | nil => simp [sumMonthly]
  | cons r t ih =>
    simp only [List.map_cons, List.countP_cons]
    rw [sumMonthly_cons, sumMonthly_cons, ih]
    by_cases hk : monthKey g u y m r
    · have hgu := monthKey_imp_gu hk
      simp only [hk, if_true, hgu, guKey_upd]
      ring
    · simp only [hk, if_false, Bool.false_eq_true]
      ring

/-- If no row matches the key, the upsert-update map is the identity. -/
theorem map_noMatch (p : MonthlyRow → Bool) (f : MonthlyRow → MonthlyRow)
    (tbl : List MonthlyRow) (h : tbl.countP p = 0) :
    tbl.map (fun r => if p r then f r else r) = tbl := by
  induction tbl with
  | nil => simp
  | cons r t ih =>
    simp only [List.countP_cons] at h
    by_cases hk : p r
    · simp [hk] at h
    · have ht : t.map (fun r => if p r then f r else r) = t := ih (by omega)
      simp [hk, ht]

theorem sumMonthly_monthIncr (tbl : List MonthlyRow) (g u : String) (y m d : Nat)
    (h : MonthlyOK tbl) :
    sumMonthly (monthIncr tbl g u y m d) g u = sumMonthly tbl g u + d := by
  unfold monthIncr
  split
  · rename_i hany
    rw [sumMonthly_map_incr]
    have hpos : 0 < tbl.countP (monthKey g u y m) :=
      List.countP_pos_iff.mpr (List.any_eq_true.mp hany)
    have hle := h g u y m
    rw [List.countP_eq_length_filter] at hpos
    have hone : tbl.countP (monthKey g u y m) = 1 := by
      rw [List.countP_eq_length_filter]
      omega
    rw [hone]
    ring
  · rw [sumMonthly_append]
    simp [sumMonthly, guKey]

theorem sumMonthly_map_incr_other (g u g' u' : String) (y m d : Nat)
    (tbl : List MonthlyRow) (h : ¬(g' = g ∧ u' = u)) :
    sumMonthly (tbl.map (fun r =>
        if monthKey g u y m r then { r with totalMs := r.totalMs + d } else r)) g' u'
      = sumMonthly tbl g' u' := by
  induction tbl with
  | nil => simp
  | cons r t ih =>
    simp only [List.map_cons]
    rw [sumMonthly_cons, sumMonthly_cons, ih]
    by_cases hk : monthKey g u y m r
    · have hgu : guKey g' u' r = false := by
        apply bool_eq_false_of
        intro ht
        obtain ⟨h1, h2⟩ := guKey_eq.mp ht
        obtain ⟨hk1, hk2, _, _⟩ := monthKey_eq.mp hk
        exact h ⟨h1.symm.trans hk1, h2.symm.trans hk2⟩
      simp [hk, guKey_upd, hgu]
    · simp only [hk, if_false, Bool.false_eq_true]

theorem sumMonthly_monthIncr_other (tbl : List MonthlyRow) (g u g' u' : String)
    (y m d : Nat) (h : ¬(g' = g ∧ u' = u)) :
    sumMonthly (monthIncr tbl g u y m d) g' u' = sumMonthly tbl g' u' := by
  unfold monthIncr
  split
  · exact sumMonthly_map_incr_other g u g' u' y m d tbl h
  · rw [sumMonthly_append]
    have hnew : guKey g' u' ⟨g, u, y, m, d⟩ = false := by
      apply bool_eq_false_of
      intro ht
      obtain ⟨h1, h2⟩ := guKey_eq.mp ht
      exact h ⟨h1.symm, h2.symm⟩
    simp [sumMonthly, hnew]

theorem monthlyOK_monthIncr (tbl : List MonthlyRow) (g u : String) (y m d : Nat)
    (h : MonthlyOK tbl) : MonthlyOK (monthIncr tbl g u y m d) := by
  intro g' u' y' m'
  unfold monthIncr
  split
  · have hcount : ∀ l : List MonthlyRow,
        ((l.map (fun r => if monthKey g u y m r then { r with totalMs := r.totalMs + d } else r)).filter
          (monthKey g' u' y' m')).length
        = (l.filter (monthKey g' u' y' m')).length := by
      intro l
      induction l with
      | nil => simp
      | cons r t ih =>
        simp only [List.map_cons, List.filter_cons]
        have hkeep : monthKey g' u' y' m'
            (if monthKey g u y m r then { r with totalMs := r.totalMs + d } else r)
          = monthKey g' u' y' m' r := by
          by_cases hk : monthKey g u y m r
          · simp only [hk, if_true, monthKey_upd]
          · simp only [hk, if_false, Bool.false_eq_true]
        rw [hkeep]
        split <;> simp [ih]
    rw [hcount]
    exact h g' u' y' m'
  · rename_i hany
    rw [List.filter_append, List.length_append]
    have h1 := h g' u' y' m'
    by_cases hsame : g' = g ∧ u' = u ∧ y' = y ∧ m' = m
    · obtain ⟨e1, e2, e3, e4⟩ := hsame
      subst e1; subst e2; subst e3; subst e4
      have h0 : (tbl.filter (monthKey g' u' y' m')).length = 0 := by
        by_contra hc
        have hp : 0 < tbl.countP (monthKey g' u' y' m') := by
          rw [List.countP_eq_length_filter]; omega
        exact absurd (List.any_eq_true.mpr (List.countP_pos_iff.mp hp)) (by simp_all)
      have hnew : monthKey g' u' y' m' (⟨g', u', y', m', d⟩ : MonthlyRow) = true :=
        monthKey_eq.mpr ⟨rfl, rfl, rfl, rfl⟩
      simp [h0, hnew]
    · have hnew : monthKey g' u' y' m' ⟨g, u, y, m, d⟩ = false := by
        apply bool_eq_false_of
        intro ht
        obtain ⟨h1, h2, h3, h4⟩ := monthKey_eq.mp ht
        exact hsame ⟨h1.symm, h2.symm, h3.symm, h4.symm⟩
      simp only [List.filter_cons, hnew, Bool.false_eq_true, if_false, List.filter_nil]
      simp only [List.length_nil]
      omega

theorem monthGet_zero_of_noMatch (tbl : List MonthlyRow) (g u : String) (y m : Nat)
    (h : tbl.countP (monthKey g u y m) = 0) : monthGet tbl g u y m = 0 := by
  unfold monthGet
  rw [List.find?_eq_none.mpr]
  · rfl
  · intro x hx
    exact (List.countP_eq_zero.mp h) x hx

theorem sumMonthly_map_set_aux (g u : String) (y m v : Nat) :
    ∀ tbl : List MonthlyRow, (tbl.filter (monthKey g u y m)).length ≤ 1 →
    sumMonthly (tbl.map (fun r =>
        if monthKey g u y m r then { r with totalMs := v } else r)) g u
        + monthGet tbl g u y m
      = sumMonthly tbl g u + v * tbl.countP (monthKey g u y m) := by
  intro tbl
  induction tbl with
  | nil => simp [sumMonthly, monthGet]
  | cons r t ih =>
    intro hlen
    simp only [List.map_cons, List.countP_cons]
    rw [sumMonthly_cons, sumMonthly_cons]
    by_cases hk : monthKey g u y m r
    · have hgu := monthKey_imp_gu hk
      have hflen : (t.filter (monthKey g u y m)).length = 0 := by
        simp only [List.filter_cons, hk, if_true, List.length_cons] at hlen
        omega
      have htc : t.countP (monthKey g u y m) = 0 := by
        rw [List.countP_eq_length_filter]
        exact hflen
      have hmapt := map_noMatch (monthKey g u y m)
        (fun r => { r with totalMs := v }) t htc
      have hget : monthGet (r :: t) g u y m = r.totalMs := by
        unfold monthGet
        simp [List.find?_cons, hk]
      rw [hmapt, hget, htc]
      simp only [hk, if_true, hgu, guKey_upd]
      ring
    · have hget : monthGet (r :: t) g u y m = monthGet t g u y m := by
        unfold monthGet
        simp [List.find?_cons, hk]
      have hlen2 : (t.filter (monthKey g u y m)).length ≤ 1 := by
        simp only [List.filter_cons, hk, Bool.false_eq_true, if_false] at hlen
        exact hlen
      have := ih hlen2
      rw [hget]
      simp only [hk, if_false, Bool.false_eq_true, Nat.add_zero]
      omega

theorem sumMonthly_monthSet (tbl : List MonthlyRow) (g u : String) (y m v : Nat)
    (h : MonthlyOK tbl) :
    sumMonthly (monthSet tbl g u y m v) g u + monthGet tbl g u y m
      = sumMonthly tbl g u + v := by
  unfold monthSet
  split
  · rename_i hany
    have hpos : 0 < tbl.countP (monthKey g u y m) :=
      List.countP_pos_iff.mpr (List.any_eq_true.mp hany)
    have hle := h g u y m
    have hone : tbl.countP (monthKey g u y m) = 1 := by
      rw [List.countP_eq_length_filter] at hpos ⊢
      omega
    have := sumMonthly_map_set_aux g u y m v tbl (h g u y m)
    rw [hone] at this
    omega
  · rename_i hany
    have hzero : tbl.countP (monthKey g u y m) = 0 := by
      rw [List.countP_eq_zero]
      intro a ha
      intro hpa
      exact absurd (List.any_eq_true.mpr ⟨a, ha, hpa⟩) (by simp_all)
    rw [sumMonthly_append, monthGet_zero_of_noMatch tbl g u y m hzero]
    simp [sumMonthly, guKey]

theorem sumMonthly_map_set_other (g u g' u' : String) (y m v : Nat)
    (tbl : List MonthlyRow) (h : ¬(g' = g ∧ u' = u)) :
    sumMonthly (tbl.map (fun r =>
        if monthKey g u y m r then { r with totalMs := v } else r)) g' u'
      = sumMonthly tbl g' u' := by
  induction tbl with
  | nil => simp
  | cons r t ih =>
    simp only [List.map_cons]
    rw [sumMonthly_cons, sumMonthly_cons, ih]
    by_cases hk : monthKey g u y m r
    · have hgu : guKey g' u' r = false := by
        apply bool_eq_false_of
        intro ht
        obtain ⟨h1, h2⟩ := guKey_eq.mp ht
        obtain ⟨hk1, hk2, _, _⟩ := monthKey_eq.mp hk
        exact h ⟨h1.symm.trans hk1, h2.symm.trans hk2⟩
      simp [hk, guKey_upd, hgu]
    · simp only [hk, if_false, Bool.false_eq_true]

theorem sumMonthly_monthSet_other (tbl : List MonthlyRow) (g u g' u' : String)
    (y m v : Nat) (h : ¬(g' = g ∧ u' = u)) :
    sumMonthly (monthSet tbl g u y m v) g' u' = sumMonthly tbl g' u' := by
  unfold monthSet
  split
  · exact sumMonthly_map_set_other g u g' u' y m v tbl h
  · rw [sumMonthly_append]
    have hnew : guKey g' u' ⟨g, u, y, m, v⟩ = false := by
      apply bool_eq_false_of
      intro ht
      obtain ⟨h1, h2⟩ := guKey_eq.mp ht
      exact h ⟨h1.symm, h2.symm⟩
    simp [sumMonthly, hnew]

theorem monthlyOK_monthSet (tbl : List MonthlyRow) (g u : String) (y m v : Nat)
    (h : MonthlyOK tbl) : MonthlyOK (monthSet tbl g u y m v) := by
  intro g' u' y' m'
  unfold monthSet
  split
  · have hcount : ∀ l : List MonthlyRow,
        ((l.map (fun r => if monthKey g u y m r then { r with totalMs := v } else r)).filter
          (monthKey g' u' y' m')).length
        = (l.filter (monthKey g' u' y' m')).length := by
      intro l
      induction l with
      | nil => simp
      | cons r t ih =>
        simp only [List.map_cons, List.filter_cons]
        have hkeep : monthKey g' u' y' m'
            (if monthKey g u y m r then { r with totalMs := v } else r)
          = monthKey g' u' y' m' r := by
          by_cases hk : monthKey g u y m r
          · simp only [hk, if_true, monthKey_upd]
          · simp only [hk, if_false, Bool.false_eq_true]
        rw [hkeep]
        split <;> simp [ih]
    rw [hcount]
    exact h g' u' y' m'
  · rename_i hany
    rw [List.filter_append, List.length_append]
    have h1 := h g' u' y' m'
    by_cases hsame : g' = g ∧ u' = u ∧ y' = y ∧ m' = m
    · obtain ⟨e1, e2, e3, e4⟩ := hsame
      subst e1; subst e2; subst e3; subst e4
      have h0 : (tbl.filter (monthKey g' u' y' m')).length = 0 := by
        by_contra hc
        have hp : 0 < tbl.countP (monthKey g' u' y' m') := by
          rw [List.countP_eq_length_filter]; omega
        exact absurd (List.any_eq_true.mpr (List.countP_pos_iff.mp hp)) (by simp_all)
      have hnew : monthKey g' u' y' m' (⟨g', u', y', m', v⟩ : MonthlyRow) = true :=
        monthKey_eq.mpr ⟨rfl, rfl, rfl, rfl⟩
      simp [h0, hnew]
    · have hnew : monthKey g' u' y' m' ⟨g, u, y, m, v⟩ = false := by
        apply bool_eq_false_of
        intro ht
        obtain ⟨h1x, h2, h3, h4⟩ := monthKey_eq.mp ht
        exact hsame ⟨h1x.symm, h2.symm, h3.symm, h4.symm⟩
      simp only [List.filter_cons, hnew, Bool.false_eq_true, if_false, List.filter_nil]
      simp only [List.length_nil]
      omega

/-- Applying the month-split increments of one finalize: uniqueness is
preserved, the finalizing subject gains exactly the segment sum, and every
other subject is untouched. -/
theorem foldSegs_spec (g u : String) (segs : List (Nat × Nat × Nat)) :
    ∀ tbl : List MonthlyRow, MonthlyOK tbl →
    MonthlyOK (segs.foldl (fun tbl s => monthIncr tbl g u s.1 s.2.1 s.2.2) tbl) ∧
    sumMonthly (segs.foldl (fun tbl s => monthIncr tbl g u s.1 s.2.1 s.2.2) tbl) g u
      = sumMonthly tbl g u + segSum segs ∧
    (∀ g' u', ¬(g' = g ∧ u' = u) →
      sumMonthly (segs.foldl (fun tbl s => monthIncr tbl g u s.1 s.2.1 s.2.2) tbl) g' u'
        = sumMonthly tbl g' u') := by
  induction segs with
  | nil =>
    intro tbl h
    exact ⟨h, by simp [segSum], fun g' u' _ => rfl⟩
  | cons s rest ih =>
    intro tbl h
    simp only [List.foldl_cons]
    have hOK := monthlyOK_monthIncr tbl g u s.1 s.2.1 s.2.2 h
    obtain ⟨ihOK, ihSum, ihOther⟩ := ih (monthIncr tbl g u s.1 s.2.1 s.2.2) hOK
    refine ⟨ihOK, ?_, ?_⟩
    · rw [ihSum, sumMonthly_monthIncr tbl g u s.1 s.2.1 s.2.2 h]
      simp only [segSum, List.map_cons, List.sum_cons]
      ring
    · intro g' u' hgu
      rw [ihOther g' u' hgu, sumMonthly_monthIncr_other tbl g u g' u' s.1 s.2.1 s.2.2 hgu]

theorem updGU_same {α : Type} (f : String → String → α) (g u : String) (v : α) :
    updGU f g u v g u = v := by
  simp [updGU]

theorem updGU_other {α : Type} (f : String → String → α) (g u g' u' : String) (v : α)
    (h : ¬(g' = g ∧ u' = u)) : updGU f g u v g' u' = f g' u' := by
  simp only [updGU, if_neg h]

theorem isUserPausedOrOnLOA_tracked (st : St) (f : String → List (String × Session))
    (g u : String) (lk : LOALookup) :
    isUserPausedOrOnLOA { st with tracked := f } g u lk = isUserPausedOrOnLOA st g u lk := rfl

/-- Shape of a finalize of an existing session while unsuspended with
delta at least 3000ms: the session leaves memory and persistence, the
all-time total gains the delta, and the month-split increments are
applied. -/
theorem stop_shape_credit (st : St) (g u : String) (now : Nat) (lk : LOALookup)
    (tr : Session)
    (hsess : mapGet u (st.tracked g) = some tr)
    (hsusp : isUserPausedOrOnLOA st g u lk = false)
    (hdelta : ¬(now - tr.startedAt < 3000)) :
    stopTrackingAndPersist st g u now lk = { st with
      tracked := Function.update st.tracked g (mapErase u (st.tracked g))
      active := sessDelete st.active g u
      total := updGU st.total g u (st.total g u + (now - tr.startedAt))
      monthly := (monthSegments tr.startedAt now).foldl
        (fun tbl s => monthIncr tbl g u s.1 s.2.1 s.2.2) st.monthly } := by
  have hsusp2 : isUserPausedOrOnLOA
      { st with tracked := Function.update st.tracked g (mapErase u (st.tracked g)) }
      g u lk = false := hsusp
  simp only [stopTrackingAndPersist, hsess, hsusp2, Bool.false_eq_true, if_false, hdelta]

/-- Shape of a finalize while the subject is suspended: session dropped
from memory and persistence, ledger untouched. -/
theorem stop_shape_suspended (st : St) (g u : String) (now : Nat) (lk : LOALookup)
    (tr : Session)
    (hsess : mapGet u (st.tracked g) = some tr)
    (hsusp : isUserPausedOrOnLOA st g u lk = true) :
    stopTrackingAndPersist st g u now lk = { st with
      tracked := Function.update st.tracked g (mapErase u (st.tracked g))
      active := sessDelete st.active g u } := by
  have hsusp2 : isUserPausedOrOnLOA
      { st with tracked := Function.update st.tracked g (mapErase u (st.tracked g)) }
      g u lk = true := hsusp
  simp only [stopTrackingAndPersist, hsess, hsusp2, if_true]

/-- Shape of a finalize with delta under 3000ms while unsuspended: the
in-memory session is removed but nothing else changes; in particular the
persisted crash-recovery row survives. -/
theorem stop_shape_short (st : St) (g u : String) (now : Nat) (lk : LOALookup)
    (tr : Session)
    (hsess : mapGet u (st.tracked g) = some tr)
    (hsusp : isUserPausedOrOnLOA st g u lk = false)
    (hdelta : now - tr.startedAt < 3000) :
    stopTrackingAndPersist st g u now lk = { st with
      tracked := Function.update st.tracked g (mapErase u (st.tracked g)) } := by
  have hsusp2 : isUserPausedOrOnLOA
      { st with tracked := Function.update st.tracked g (mapErase u (st.tracked g)) }
      g u lk = false := hsusp
  simp only [stopTrackingAndPersist, hsess, hsusp2, Bool.false_eq_true, if_false, hdelta,
    if_true]

/-- A finalize with no open session is a no-op. -/
theorem stop_shape_none (st : St) (g u : String) (now : Nat) (lk : LOALookup)
    (hsess : mapGet u (st.tracked g) = none) :
    stopTrackingAndPersist st g u now lk = st := by
  simp only [stopTrackingAndPersist, hsess]

theorem mapGet_mapErase (u : String) (l : List (String × Session)) :
    mapGet u (mapErase u l) = none := by
  simp only [mapGet, mapErase]
  rw [List.find?_eq_none.mpr]
  · rfl
  · intro x hx
    have hpred := List.of_mem_filter hx
    simp only [Bool.not_eq_true'] at hpred
    simp [hpred]

theorem mapGet_guildRows (tbl : List ActiveRow) (g u : String) :
    mapGet u (guildRows tbl g) = sessFind tbl g u := by
  induction tbl with
  | nil => rfl
  | cons r t ih =>
    simp only [guildRows] at ih ⊢
    simp only [List.filterMap_cons]
    by_cases hg : r.guildId = g
    · by_cases hu : r.userId = u
      · simp [mapGet, sessFind, List.find?_cons, hg, hu]
      · simp only [hg, beq_self_eq_true, if_true]
        simp only [mapGet, sessFind, List.find?_cons] at ih ⊢
        have hub : (r.userId == u) = false := by simp [hu]
        simp only [hub, beq_self_eq_true, Bool.true_and, Bool.and_false]
        exact ih
    · have hgb : (r.guildId == g) = false := by simp [hg]
      simp only [hgb, Bool.false_eq_true, if_false]
      simp only [sessFind, List.find?_cons, hgb, Bool.false_and] at ih ⊢
      exact ih

/-- First writer wins: a second `startTracking` with a live session is a
no-op. -/
theorem startTracking_existing (st : St) (g u cid : String) (now : Nat) (isBot : Bool)
    (s : Session) (h : mapGet u (st.tracked g) = some s) :
    startTracking st g u cid now isBot = st := by
  cases isBot <;> simp [startTracking, h]

theorem startTracking_ledger (st : St) (g u cid : String) (now : Nat) (isBot : Bool) :
    (startTracking st g u cid now isBot).monthly = st.monthly ∧
    (startTracking st g u cid now isBot).total = st.total := by
  cases isBot
  · cases h : mapGet u (st.tracked g) <;> simp [startTracking, h]
  · simp [startTracking]

theorem isUserPausedOrOnLOA_error (st : St) (g u : String) (e : Unit) :
    isUserPausedOrOnLOA st g u (Except.error e)
      = isUserPausedOrOnLOA st g u (Except.ok none) := by
  unfold isUserPausedOrOnLOA
  by_cases hp : isUserPaused st g u <;> simp [hp]

/-- Finalize behaves identically under a throwing leave lookup and under a
successful lookup reporting no leave: the catch in `isUserPausedOrOnLOA`
fails open. -/
theorem stop_error_eq (st : St) (g u : String) (now : Nat) (e : Unit) :
    stopTrackingAndPersist st g u now (Except.error e)
      = stopTrackingAndPersist st g u now (Except.ok none) := by
  cases hm : mapGet u (st.tracked g) with
  | none =>
    rw [stop_shape_none st g u now _ hm, stop_shape_none st g u now _ hm]
  | some tr =>
    cases hsp : isUserPausedOrOnLOA st g u (Except.ok none) with
    | true =>
      have h1 : isUserPausedOrOnLOA st g u (Except.error e) = true := by
        rw [isUserPausedOrOnLOA_error]; exact hsp
      rw [stop_shape_suspended st g u now _ tr hm h1,
        stop_shape_suspended st g u now _ tr hm hsp]
    | false =>
      have h1 : isUserPausedOrOnLOA st g u (Except.error e) = false := by
        rw [isUserPausedOrOnLOA_error]; exact hsp
      by_cases hd : now - tr.startedAt < 3000
      · rw [stop_shape_short st g u now _ tr hm h1 hd,
          stop_shape_short st g u now _ tr hm hsp hd]
      · rw [stop_shape_credit st g u now _ tr hm h1 hd,
          stop_shape_credit st g u now _ tr hm hsp hd]

/-- Zone-entry with a throwing leave lookup: the rejection is caught and
logged at the call site and no tracking starts. -/
theorem checkLOA_error (st : St) (g u cid : String) (now : Nat) (e : Unit) :
    checkLOAAndStartTracking st g u cid now (Except.error e) = st := by
  unfold checkLOAAndStartTracking
  by_cases hp : isUserPaused st g u <;> simp [hp]

theorem adjust_shape (st : St) (g u : String) (dInt : Int) (year month : Option Nat)
    (now : Nat) :
    adjustUserTime st g u dInt year month now = { st with
      total := updGU st.total g u (max 0 ((st.total g u : Int) + dInt)).toNat
      monthly := monthSet st.monthly g u
        (year.getD (yearOfIdx (monthIndexOf now)))
        (month.getD (monthOfIdx (monthIndexOf now) + 1))
        (max 0 ((monthGet st.monthly g u
          (year.getD (yearOfIdx (monthIndexOf now)))
          (month.getD (monthOfIdx (monthIndexOf now) + 1)) : Int) + dInt)).toNat } := rfl

theorem ledgerInv_stop (st : St) (g u : String) (now : Nat) (lk : LOALookup)
    (h : LedgerInv st) : LedgerInv (stopTrackingAndPersist st g u now lk) := by
  obtain ⟨hOK, hsum⟩ := h
  cases hsess : mapGet u (st.tracked g) with
  | none => rw [stop_shape_none st g u now lk hsess]; exact ⟨hOK, hsum⟩
  | some tr =>
    cases hsusp : isUserPausedOrOnLOA st g u lk with
    | true =>
      rw [stop_shape_suspended st g u now lk tr hsess hsusp]
      exact ⟨hOK, hsum⟩
    | false =>
      by_cases hd : now - tr.startedAt < 3000
      · rw [stop_shape_short st g u now lk tr hsess hsusp hd]
        exact ⟨hOK, hsum⟩
      · rw [stop_shape_credit st g u now lk tr hsess hsusp hd]
        obtain ⟨fOK, fSum, fOther⟩ :=
          foldSegs_spec g u (monthSegments tr.startedAt now) st.monthly hOK
        refine ⟨fOK, ?_⟩
        intro g' u'
        show sumMonthly _ g' u' = updGU st.total g u _ g' u'
        by_cases hgu : g' = g ∧ u' = u
        · obtain ⟨e1, e2⟩ := hgu
          subst e1; subst e2
          rw [fSum, updGU_same, monthSegments_sum, hsum]
        · rw [fOther g' u' hgu, updGU_other st.total g u g' u' _ hgu, hsum]

theorem ledgerInv_adjust (st : St) (g u : String) (d : Nat) (year month : Option Nat)
    (now : Nat) (h : LedgerInv st) :
    LedgerInv (adjustUserTime st g u (d : Int) year month now) := by
  obtain ⟨hOK, hsum⟩ := h
  rw [adjust_shape]
  set ty := year.getD (yearOfIdx (monthIndexOf now)) with hty
  set tm := month.getD (monthOfIdx (monthIndexOf now) + 1) with htm
  have hnt : (max 0 ((st.total g u : Int) + (d : Int))).toNat = st.total g u + d := by
    omega
  have hnm : (max 0 ((monthGet st.monthly g u ty tm : Int) + (d : Int))).toNat
      = monthGet st.monthly g u ty tm + d := by
    omega
  refine ⟨monthlyOK_monthSet st.monthly g u ty tm _ hOK, ?_⟩
  intro g' u'
  show sumMonthly (monthSet st.monthly g u ty tm _) g' u' = updGU st.total g u _ g' u'
  by_cases hgu : g' = g ∧ u' = u
  · obtain ⟨e1, e2⟩ := hgu
    subst e1; subst e2
    have hset := sumMonthly_monthSet st.monthly g' u' ty tm
      (max 0 ((monthGet st.monthly g' u' ty tm : Int) + (d : Int))).toNat hOK
    rw [updGU_same, hnt, ← hsum g' u']
    omega
  · rw [sumMonthly_monthSet_other st.monthly g u g' u' ty tm _ hgu,
      updGU_other st.total g u g' u' _ hgu, hsum]

theorem ledgerInv_applyOp (st : St) (op : LedgerOp) (h : LedgerInv st) :
    LedgerInv (applyOp st op) := by
  cases op with
  | finalize g u now lk => exact ledgerInv_stop st g u now lk h
  | adjust g u d year month now => exact ledgerInv_adjust st g u d year month now h
  | enter g u cid now isBot =>
    show LedgerInv (startTracking st g u cid now isBot)
    obtain ⟨hm, ht⟩ := startTracking_ledger st g u cid now isBot
    exact ⟨hm ▸ h.1, fun g' u' => by rw [hm, ht]; exact h.2 g' u'⟩

/-! ## Claim theorems: session tracker and ledger -/
set_option maxRecDepth 100000 in
/-- C1: for every session finalized with elapsed delta at least 3000ms
while the subject is not suspended, the all-time ledger total increases by
exactly the delta and the month-split segments sum to exactly the delta;
the session 2024-01-31T23:00:00Z to 2024-02-01T01:30:00Z credits
3,600,000ms to the (2024, January) bucket and 5,400,000ms to the
(2024, February) bucket. -/
theorem claim_C1_finalize_credits_delta (st : St) (g u : String) (now : Nat)
    (lk : LOALookup) (tr : Session)
    (hsess : mapGet u (st.tracked g) = some tr)
    (hsusp : isUserPausedOrOnLOA st g u lk = false)
    (hdelta : 3000 ≤ now - tr.startedAt) :
    (stopTrackingAndPersist st g u now lk).total g u
        = st.total g u + (now - tr.startedAt)
      ∧ segSum (monthSegments tr.startedAt now) = now - tr.startedAt
      ∧ monthSegments (dateUTCMonthStart 2024 0 + 30 * msPerDay + 23 * 3600000)
          (dateUTCMonthStart 2024 1 + 90 * 60000)
        = [(2024, 1, 3600000), (2024, 2, 5400000)] := by
  refine ⟨?_, monthSegments_sum _ _, by decide⟩
  rw [stop_shape_credit st g u now lk tr hsess hsusp (by omega)]
  exact updGU_same st.total g u _

theorem claim_C1_finalize_credits_delta_witness :
    mapGet "u" (stDemo.tracked "g") = some ⟨"c", 0⟩ ∧
      ((stopTrackingAndPersist stDemo "g" "u" 5000 (Except.ok none)).total "g" "u"
          = stDemo.total "g" "u" + (5000 - 0)
        ∧ segSum (monthSegments 0 5000) = 5000 - 0
        ∧ monthSegments (dateUTCMonthStart 2024 0 + 30 * msPerDay + 23 * 3600000)
            (dateUTCMonthStart 2024 1 + 90 * 60000)
          = [(2024, 1, 3600000), (2024, 2, 5400000)]) :=
  ⟨by decide, claim_C1_finalize_credits_delta stDemo "g" "u" 5000 (Except.ok none)
    ⟨"c", 0⟩ (by decide) (by decide) (by decide)⟩

/-- C3 counterexample: starting from the fresh state, a session finalize
crediting 100000ms followed by an administrative reset leaves the monthly
sum at 100000 while the all-time total is zeroed, so the claimed
sum-equals-total invariant over sequences of public operations is false:
`reset` does not update the monthly store. -/
theorem claim_C3_counterexample :
    ¬ (sumMonthly stC3reset.monthly "g" "u" = stC3reset.total "g" "u") := by
  decide

/-- C3 (amended): for every subject, the sum of monthly bucket totals
equals the all-time total after any sequence of session starts, session
finalizes, and nonnegative administrative adjustments, starting from any
state satisfying the invariant; `reset` (which leaves monthly rows
untouched) and negative adjustments (clamped independently in the two
stores) are excluded. -/
theorem claim_C3_monthly_sum_amended (st : St) (ops : List LedgerOp)
    (h : LedgerInv st) : LedgerInv (applyOps st ops) := by
  induction ops generalizing st with
  | nil => exact h
  | cons op rest ih => exact ih (applyOp st op) (ledgerInv_applyOp st op h)

theorem claim_C3_monthly_sum_amended_witness :
    LedgerInv (applyOps emptySt
      [LedgerOp.enter "g" "u" "c" 0 false,
       LedgerOp.finalize "g" "u" 5000 (Except.ok none),
       LedgerOp.adjust "g" "u" 250 none none 6000]) :=
  claim_C3_monthly_sum_amended emptySt
    [LedgerOp.enter "g" "u" "c" 0 false,
     LedgerOp.finalize "g" "u" 5000 (Except.ok none),
     LedgerOp.adjust "g" "u" 250 none none 6000]
    ⟨fun _ _ _ _ => by simp [emptySt], fun _ _ => rfl⟩

/-- C5: a finalize while the subject is suspended (manual pause, group
pause, or active leave) leaves the all-time totals and every monthly
bucket unchanged, for any elapsed duration. -/
theorem claim_C5_suspended_finalize_no_credit (st : St) (g u : String) (now : Nat)
    (lk : LOALookup) (tr : Session)
    (hsess : mapGet u (st.tracked g) = some tr)
    (hsusp : isUserPausedOrOnLOA st g u lk = true) :
    (stopTrackingAndPersist st g u now lk).total = st.total
      ∧ (stopTrackingAndPersist st g u now lk).monthly = st.monthly := by
  rw [stop_shape_suspended st g u now lk tr hsess hsusp]
  exact ⟨rfl, rfl⟩

theorem claim_C5_suspended_finalize_no_credit_witness :
    isUserPausedOrOnLOA stDemo "g" "u" (Except.ok (some ())) = true ∧
      ((stopTrackingAndPersist stDemo "g" "u" 999999999 (Except.ok (some ()))).total
          = stDemo.total
        ∧ (stopTrackingAndPersist stDemo "g" "u" 999999999 (Except.ok (some ()))).monthly
          = stDemo.monthly) :=
  ⟨by decide, claim_C5_suspended_finalize_no_credit stDemo "g" "u" 999999999
    (Except.ok (some ())) ⟨"c", 0⟩ (by decide) (by decide)⟩

/-- C6: a second `startTracking` for a (group, subject) with an existing
open session is a no-op: the whole state, in particular the stored
location and start time, is unchanged and no session is created. -/
theorem claim_C6_start_idempotent (st : St) (g u cid : String) (now : Nat)
    (isBot : Bool) (s : Session) (hsess : mapGet u (st.tracked g) = some s) :
    startTracking st g u cid now isBot = st :=
  startTracking_existing st g u cid now isBot s hsess

theorem claim_C6_start_idempotent_witness :
    startTracking stDemo "g" "u" "c2" 42 false = stDemo :=
  claim_C6_start_idempotent stDemo "g" "u" "c2" 42 false ⟨"c", 0⟩ (by decide)

/-- C8: `pauseUser` fails and changes nothing when the subject has an open
session, succeeds and marks the subject paused otherwise; `pauseGuild`
fails whenever any subject of the guild has an open session. -/
theorem claim_C8_pause_requires_no_session (st : St) (g u u2 : String) :
    (∀ s : Session, mapGet u (st.tracked g) = some s → pauseUser st g u = (st, false))
    ∧ (mapGet u2 (st.tracked g) = none →
        (pauseUser st g u2).2 = true ∧ isUserPaused (pauseUser st g u2).1 g u2 = true)
    ∧ ((st.tracked g).isEmpty = false → pauseGuild st g = (st, false)) := by
  refine ⟨?_, ?_, ?_⟩
  · intro s hs
    simp [pauseUser, hs]
  · intro hnone
    constructor
    · simp [pauseUser, hnone]
    · simp [pauseUser, hnone, isUserPaused, updGU]
  · intro hne
    simp [pauseGuild, hne]

theorem claim_C8_pause_requires_no_session_witness :
    pauseUser stDemo "g" "u" = (stDemo, false)
    ∧ (pauseUser stDemo "g" "u2").2 = true
    ∧ pauseGuild stDemo "g" = (stDemo, false) :=
  ⟨(claim_C8_pause_requires_no_session stDemo "g" "u" "u2").1 ⟨"c", 0⟩ (by decide),
   ((claim_C8_pause_requires_no_session stDemo "g" "u" "u2").2.1 (by decide)).1,
   (claim_C8_pause_requires_no_session stDemo "g" "u" "u2").2.2 (by decide)⟩

/-- C9 counterexample: with a throwing leave lookup, zone-entry does not
behave as if the subject were not on leave: the entry handler aborts
(rejection caught and logged at the call site) and no session is started,
whereas with a successful no-leave lookup a session is started. -/
theorem claim_C9_counterexample :
    (checkLOAAndStartTracking emptySt "g" "u" "c" 0 (Except.error ())).tracked "g" = []
    ∧ (checkLOAAndStartTracking emptySt "g" "u" "c" 0 (Except.ok none)).tracked "g"
        = [("u", ⟨"c", 0⟩)] := by
  constructor
  · rfl
  · decide

/-- C9 (amended): the combined suspension check treats a throwing leave
lookup exactly like a successful "no leave" result (fail-open), in
particular it reports "not suspended" when the subject is not manually
paused, and finalize proceeds identically; session start however aborts
without starting tracking when the zone-entry lookup throws, because that
call is not wrapped in the fail-open catch. -/
theorem claim_C9_lookup_failopen_amended :
    (∀ (st : St) (g u : String) (e : Unit),
      isUserPausedOrOnLOA st g u (Except.error e)
        = isUserPausedOrOnLOA st g u (Except.ok none))
    ∧ (∀ (st : St) (g u : String) (e : Unit), isUserPaused st g u = false →
        isUserPausedOrOnLOA st g u (Except.error e) = false)
    ∧ (∀ (st : St) (g u : String) (now : Nat) (e : Unit),
        stopTrackingAndPersist st g u now (Except.error e)
          = stopTrackingAndPersist st g u now (Except.ok none))
    ∧ (∀ (st : St) (g u cid : String) (now : Nat) (e : Unit),
        checkLOAAndStartTracking st g u cid now (Except.error e) = st) := by
  refine ⟨fun st g u e => isUserPausedOrOnLOA_error st g u e, ?_,
    fun st g u now e => stop_error_eq st g u now e,
    fun st g u cid now e => checkLOA_error st g u cid now e⟩
  intro st g u e hp
  rw [isUserPausedOrOnLOA_error]
  simp [isUserPausedOrOnLOA, hp]

theorem claim_C9_lookup_failopen_amended_witness :
    isUserPausedOrOnLOA emptySt "g" "u" (Except.error ()) = false :=
  claim_C9_lookup_failopen_amended.2.1 emptySt "g" "u" () (by decide)

/-- C10: a finalize with delta under 3000ms while unsuspended removes the
in-memory session and changes no ledger store, but keeps the persisted
crash-recovery row, so a restart reloads the session with its original
start time and a later zone-entry start is a no-op on it. -/
theorem claim_C10_short_session_survives_restart (st : St) (g u : String) (now : Nat)
    (lk : LOALookup) (tr : Session) (cid2 : String) (now2 : Nat) (isBot2 : Bool)
    (hsess : mapGet u (st.tracked g) = some tr)
    (hsusp : isUserPausedOrOnLOA st g u lk = false)
    (hdelta : now - tr.startedAt < 3000)
    (hact : sessFind st.active g u = some tr) :
    mapGet u ((stopTrackingAndPersist st g u now lk).tracked g) = none
    ∧ (stopTrackingAndPersist st g u now lk).total = st.total
    ∧ (stopTrackingAndPersist st g u now lk).monthly = st.monthly
    ∧ (stopTrackingAndPersist st g u now lk).active = st.active
    ∧ mapGet u ((restartState (stopTrackingAndPersist st g u now lk)).tracked g)
        = some tr
    ∧ startTracking (restartState (stopTrackingAndPersist st g u now lk))
        g u cid2 now2 isBot2
      = restartState (stopTrackingAndPersist st g u now lk) := by
  rw [stop_shape_short st g u now lk tr hsess hsusp hdelta]
  have hreload : mapGet u
      ((restartState { st with
        tracked := Function.update st.tracked g (mapErase u (st.tracked g)) }).tracked g)
      = some tr := by
    show mapGet u (guildRows st.active g) = some tr
    rw [mapGet_guildRows]
    exact hact
  refine ⟨?_, rfl, rfl, rfl, hreload, ?_⟩
  · show mapGet u (Function.update st.tracked g (mapErase u (st.tracked g)) g) = none
    rw [Function.update_same]
    exact mapGet_mapErase u (st.tracked g)
  · exact startTracking_existing _ g u cid2 now2 isBot2 tr hreload

theorem claim_C10_short_session_survives_restart_witness :
    mapGet "u" ((stopTrackingAndPersist stDemo "g" "u" 2000 (Except.ok none)).tracked "g")
        = none
    ∧ (stopTrackingAndPersist stDemo "g" "u" 2000 (Except.ok none)).total = stDemo.total
    ∧ (stopTrackingAndPersist stDemo "g" "u" 2000 (Except.ok none)).monthly
        = stDemo.monthly
    ∧ (stopTrackingAndPersist stDemo "g" "u" 2000 (Except.ok none)).active = stDemo.active
    ∧ mapGet "u"
        ((restartState (stopTrackingAndPersist stDemo "g" "u" 2000 (Except.ok none))).tracked "g")
        = some ⟨"c", 0⟩
    ∧ startTracking (restartState (stopTrackingAndPersist stDemo "g" "u" 2000 (Except.ok none)))
        "g" "u" "c9" 7777 false
      = restartState (stopTrackingAndPersist stDemo "g" "u" 2000 (Except.ok none)) :=
  claim_C10_short_session_survives_restart stDemo "g" "u" 2000 (Except.ok none)
    ⟨"c", 0⟩ "c9" 7777 false (by decide) (by decide) (by decide) (by decide)

/-! ## Sweep lemmas -/
theorem hasReceived_eq_any (rows : List WarningRow) (g u r : String) (idx : Int)
    (assignedAt : Nat) (atid : Option Nat) :
    hasReceivedWarning rows g u r idx assignedAt atid
      = rows.any (warnGuard g u r idx assignedAt atid) := by
  by_cases ht : truthyId atid = true
  · simp only [hasReceivedWarning, ht, if_true]
    exact congrArg rows.any (funext fun w => by simp [warnGuard, ht])
  · simp only [Bool.not_eq_true] at ht
    simp only [hasReceivedWarning, ht, Bool.false_eq_true, if_false]
    exact congrArg rows.any (funext fun w => by simp [warnGuard, ht])

theorem countP_zero_of_any_false {p : WarningRow → Bool} {rows : List WarningRow}
    (h : rows.any p = false) : rows.countP p = 0 := by
  rw [List.countP_eq_zero]
  intro a ha hpa
  exact absurd (List.any_eq_true.mpr ⟨a, ha, hpa⟩) (by simp [h])

theorem any_false_of_countP_zero {p : WarningRow → Bool} {rows : List WarningRow}
    (h : rows.countP p = 0) : rows.any p = false := by
  apply bool_eq_false_of
  intro ht
  obtain ⟨a, ha, hpa⟩ := List.any_eq_true.mp ht
  exact (List.countP_eq_zero.mp h) a ha hpa

/-- A recorded row for a different warning index never matches the guard. -/
theorem warnGuard_record_ne (g u r : String) (i j : Int) (assignedAt : Nat)
    (atid : Option Nat) (t : String) (s A2 : Nat) (aid2 : Option Nat)
    (hne : j ≠ i) :
    warnGuard g u r i assignedAt atid ⟨g, u, r, t, j, s, A2, aid2⟩ = false := by
  unfold warnGuard
  by_cases ht : truthyId atid = true <;> simp [ht, hne]

/-- The row appended by `recordWarningSent` satisfies the guard of its own
key. -/
theorem record_guard_true (g u r : String) (idx : Int) (wtype : String)
    (sentAt assignedAt : Nat) (atid : Option Nat) (rows : List WarningRow) :
    hasReceivedWarning (recordWarningSent rows g u r wtype idx sentAt assignedAt atid)
      g u r idx assignedAt atid = true := by
  rw [hasReceived_eq_any]
  unfold recordWarningSent
  rw [List.any_append]
  have hlast : warnGuard g u r idx assignedAt atid
      ⟨g, u, r, wtype, idx, sentAt, assignedAt,
        if truthyId atid then atid else none⟩ = true := by
    unfold warnGuard
    by_cases ht : truthyId atid = true <;> simp [ht]
  simp [hlast]

theorem hasReceived_mono (rows ext : List WarningRow) (g u r : String) (idx : Int)
    (A : Nat) (atid : Option Nat)
    (h : hasReceivedWarning rows g u r idx A atid = true) :
    hasReceivedWarning (rows ++ ext) g u r idx A atid = true := by
  rw [hasReceived_eq_any] at h ⊢
  rw [List.any_append, h]
  rfl

theorem warnLoop_ext (g u r : String) (A : Nat) (atid : Option Nat) (ts now : Nat)
    (dm : Int → Bool) :
    ∀ (ws : List WarningCfg) (rows : List WarningRow),
    ∃ ext, (warnLoop g u r A atid ts now dm ws rows).1 = rows ++ ext := by
  intro ws
  induction ws with
  | nil =>
    intro rows
    exact ⟨[], by simp [warnLoop]⟩
  | cons w ws ih =>
    intro rows
    simp only [warnLoop]
    cases hpo : parseDurationToMs w.offset with
    | none => exact ih rows
    | some off =>
      dsimp only
      by_cases hel : off ≤ ts
      · rw [if_pos hel]
        by_cases hrec : hasReceivedWarning rows g u r w.index A atid = true
        · rw [if_pos hrec]
          exact ih rows
        · rw [if_neg hrec]
          by_cases hdm : dm w.index = true
          · rw [if_pos hdm]
            obtain ⟨ext, hext⟩ :=
              ih (recordWarningSent rows g u r "warning" w.index now A atid)
            refine ⟨(⟨g, u, r, "warning", w.index, now, A,
              if truthyId atid then atid else none⟩ : WarningRow) :: ext, ?_⟩
            show (warnLoop g u r A atid ts now dm ws
              (recordWarningSent rows g u r "warning" w.index now A atid)).1 = _
            rw [hext]
            simp [recordWarningSent]
          · rw [if_neg hdm]
            exact ih rows
      · rw [if_neg hel]
        exact ih rows

theorem warnLoop_hasReceived_mono (g u r : String) (A : Nat) (atid : Option Nat)
    (ts now : Nat) (dm : Int → Bool) (ws : List WarningCfg) (rows : List WarningRow)
    (idx : Int)
    (h : hasReceivedWarning rows g u r idx A atid = true) :
    hasReceivedWarning (warnLoop g u r A atid ts now dm ws rows).1 g u r idx A atid
      = true := by
  obtain ⟨ext, hext⟩ := warnLoop_ext g u r A atid ts now dm ws rows
  rw [hext]
  exact hasReceived_mono rows ext g u r idx A atid h

theorem sweepStep_noconds (cfg : RoleTrackingConfig) (g u r : String) (A : Nat)
    (atid : Option Nat) (now : Nat) (pm : Bool) (dm : Int → Bool) (so : Bool)
    (rows : List WarningRow)
    (hconds : (cfg.conditions.getD []).isEmpty = true) :
    sweepStep cfg g u r A atid now pm dm so rows = (rows, [], false) := by
  unfold sweepStep
  rw [if_pos hconds]

theorem sweepStep_baddl (cfg : RoleTrackingConfig) (g u r : String) (A : Nat)
    (atid : Option Nat) (now : Nat) (pm : Bool) (dm : Int → Bool) (so : Bool)
    (rows : List WarningRow)
    (hconds : ¬ ((cfg.conditions.getD []).isEmpty = true))
    (hdl : parseDurationToMs cfg.deadlineDuration = none) :
    sweepStep cfg g u r A atid now pm dm so rows = (rows, [], false) := by
  unfold sweepStep
  rw [if_neg hconds, hdl]

theorem sweepStep_grace (cfg : RoleTrackingConfig) (g u r : String) (A : Nat)
    (atid : Option Nat) (now : Nat) (pm : Bool) (dm : Int → Bool) (so : Bool)
    (rows : List WarningRow) (dl : Nat)
    (hconds : ¬ ((cfg.conditions.getD []).isEmpty = true))
    (hdl : parseDurationToMs cfg.deadlineDuration = some dl)
    (hTM : ((cfg.conditions.getD []).contains "PATROL" && pm) = true) :
    sweepStep cfg g u r A atid now pm dm so rows
      = (removeWarningsForUser rows g u r atid, [], false) := by
  unfold sweepStep
  rw [if_neg hconds, hdl]
  simp only [hTM, if_true, Bool.not_true, Bool.false_eq_true, if_false]

theorem sweepStep_main (cfg : RoleTrackingConfig) (g u r : String) (A : Nat)
    (atid : Option Nat) (now : Nat) (pm : Bool) (dm : Int → Bool) (so : Bool)
    (rows : List WarningRow) (dl : Nat)
    (hconds : ¬ ((cfg.conditions.getD []).isEmpty = true))
    (hdl : parseDurationToMs cfg.deadlineDuration = some dl)
    (hTM : ((cfg.conditions.getD []).contains "PATROL" && pm) = false) :
    sweepStep cfg g u r A atid now pm dm so rows
      = (match parseDurationToMs cfg.staffPingOffset with
         | some spo =>
           if spo ≤ now - A then
             if hasReceivedWarning
                 (warnLoop g u r A atid (now - A) now dm cfg.warnings rows).1
                 g u r (-1) A atid then
               ((warnLoop g u r A atid (now - A) now dm cfg.warnings rows).1,
                (warnLoop g u r A atid (now - A) now dm cfg.warnings rows).2, false)
             else
               (recordWarningSent
                 (warnLoop g u r A atid (now - A) now dm cfg.warnings rows).1
                 g u r "staff_ping" (-1) now A atid,
                (warnLoop g u r A atid (now - A) now dm cfg.warnings rows).2, true)
           else
             ((warnLoop g u r A atid (now - A) now dm cfg.warnings rows).1,
              (warnLoop g u r A atid (now - A) now dm cfg.warnings rows).2, false)
         | none =>
           ((warnLoop g u r A atid (now - A) now dm cfg.warnings rows).1,
            (warnLoop g u r A atid (now - A) now dm cfg.warnings rows).2, false)) := by
  unfold sweepStep
  rw [if_neg hconds, hdl]
  simp only [hTM, Bool.false_eq_true, if_false, Bool.not_false, if_true]

theorem warnOK_filter (rows : List WarningRow) (q : WarningRow → Bool)
    (h : WarnOK rows) : WarnOK (rows.filter q) := by
  obtain ⟨h1, h2⟩ := h
  constructor
  · intro g u r idx a
    calc ((rows.filter q).filter (keyId g u r idx a)).length
        ≤ (rows.filter (keyId g u r idx a)).length :=
          List.Sublist.length_le (List.Sublist.filter _ (List.filter_sublist rows))
      _ ≤ 1 := h1 g u r idx a
  · intro g u r idx ts
    calc ((rows.filter q).filter (keyNull g u r idx ts)).length
        ≤ (rows.filter (keyNull g u r idx ts)).length :=
          List.Sublist.length_le (List.Sublist.filter _ (List.filter_sublist rows))
      _ ≤ 1 := h2 g u r idx ts

theorem warnOK_remove (rows : List WarningRow) (g u r : String) (atid : Option Nat)
    (h : WarnOK rows) : WarnOK (removeWarningsForUser rows g u r atid) := by
  unfold removeWarningsForUser
  by_cases ht : truthyId atid = true
  · rw [if_pos ht]
    exact warnOK_filter rows _ h
  · rw [if_neg ht]
    exact warnOK_filter rows _ h

theorem length_filter_singleton (p : WarningRow → Bool) (x : WarningRow) :
    ([x].filter p).length ≤ 1 := by
  by_cases h : p x <;> simp [h]

theorem warnOK_record (rows : List WarningRow) (g u r : String) (wtype : String)
    (idx : Int) (s A : Nat) (atid : Option Nat)
    (h : WarnOK rows)
    (hrec : hasReceivedWarning rows g u r idx A atid = false) :
    WarnOK (recordWarningSent rows g u r wtype idx s A atid) := by
  obtain ⟨h1, h2⟩ := h
  unfold recordWarningSent
  constructor
  · intro g' u' r' idx' a'
    rw [List.filter_append, List.length_append]
    have hsing := length_filter_singleton (keyId g' u' r' idx' a')
      ⟨g, u, r, wtype, idx, s, A, if truthyId atid then atid else none⟩
    by_cases hrow : keyId g' u' r' idx' a'
        ⟨g, u, r, wtype, idx, s, A, if truthyId atid then atid else none⟩ = true
    · by_cases ht : truthyId atid = true
      · have hflds := hrow
        simp only [keyId, ht, if_true, Bool.and_eq_true, beq_iff_eq] at hflds
        obtain ⟨⟨⟨⟨hg, hu⟩, hr⟩, hidx⟩, hatid⟩ := hflds
        subst hg; subst hu; subst hr; subst hidx
        have hzero : rows.countP (keyId g u r idx a') = 0 := by
          apply countP_zero_of_any_false
          apply bool_eq_false_of
          intro hany
          obtain ⟨w, hw, hpw⟩ := List.any_eq_true.mp hany
          have hgot : hasReceivedWarning rows g u r idx A atid = true := by
            unfold hasReceivedWarning
            rw [if_pos ht]
            apply List.any_eq_true.mpr
            refine ⟨w, hw, ?_⟩
            simp only [keyId, Bool.and_eq_true, beq_iff_eq] at hpw
            obtain ⟨⟨⟨⟨hg2, hu2⟩, hr2⟩, hidx2⟩, hatid2⟩ := hpw
            simp only [Bool.and_eq_true, beq_iff_eq]
            exact ⟨⟨⟨⟨hg2, hu2⟩, hr2⟩, hidx2⟩, by rw [hatid2, hatid]⟩
          rw [hrec] at hgot
          exact Bool.false_ne_true hgot
        rw [List.countP_eq_length_filter] at hzero
        omega
      · exfalso
        simp only [keyId, ht, Bool.false_eq_true, if_false, Bool.and_eq_true,
          beq_iff_eq] at hrow
        exact Option.noConfusion hrow.2
    · simp only [Bool.not_eq_true] at hrow
      have hs0 : ([(⟨g, u, r, wtype, idx, s, A,
          if truthyId atid then atid else none⟩ : WarningRow)].filter
            (keyId g' u' r' idx' a')).length = 0 := by
        simp [List.filter_cons, hrow]
      have := h1 g' u' r' idx' a'
      omega
  · intro g' u' r' idx' ts'
    rw [List.filter_append, List.length_append]
    have hsing := length_filter_singleton (keyNull g' u' r' idx' ts')
      ⟨g, u, r, wtype, idx, s, A, if truthyId atid then atid else none⟩
    by_cases hrow : keyNull g' u' r' idx' ts'
        ⟨g, u, r, wtype, idx, s, A, if truthyId atid then atid else none⟩ = true
    · by_cases ht : truthyId atid = true
      · exfalso
        have hflds := hrow
        simp only [keyNull, ht, if_true, Bool.and_eq_true, beq_iff_eq] at hflds
        obtain ⟨⟨_, hnone⟩, _⟩ := hflds
        cases atid with
        | none => simp [truthyId] at ht
        | some n => exact Option.noConfusion hnone
      · have hflds := hrow
        simp only [keyNull, ht, Bool.false_eq_true, if_false, Bool.and_eq_true,
          beq_iff_eq] at hflds
        obtain ⟨⟨⟨⟨⟨hg, hu⟩, hr⟩, hidx⟩, _⟩, hts⟩ := hflds
        subst hg; subst hu; subst hr; subst hidx
        have hzero : rows.countP (keyNull g u r idx ts') = 0 := by
          apply countP_zero_of_any_false
          apply bool_eq_false_of
          intro hany
          obtain ⟨w, hw, hpw⟩ := List.any_eq_true.mp hany
          have hgot : hasReceivedWarning rows g u r idx A atid = true := by
            unfold hasReceivedWarning
            rw [if_neg ht]
            apply List.any_eq_true.mpr
            refine ⟨w, hw, ?_⟩
            simp only [keyNull, Bool.and_eq_true, beq_iff_eq] at hpw
            obtain ⟨⟨⟨⟨⟨hg2, hu2⟩, hr2⟩, hidx2⟩, _⟩, hts2⟩ := hpw
            simp only [Bool.and_eq_true, beq_iff_eq]
            exact ⟨⟨⟨⟨hg2, hu2⟩, hr2⟩, hidx2⟩, by rw [hts2, ← hts]⟩
          rw [hrec] at hgot
          exact Bool.false_ne_true hgot
        rw [List.countP_eq_length_filter] at hzero
        omega
    · simp only [Bool.not_eq_true] at hrow
      have hs0 : ([(⟨g, u, r, wtype, idx, s, A,
          if truthyId atid then atid else none⟩ : WarningRow)].filter
            (keyNull g' u' r' idx' ts')).length = 0 := by
        simp [List.filter_cons, hrow]
      have := h2 g' u' r' idx' ts'
      omega

theorem warnLoop_warnOK (g u r : String) (A : Nat) (atid : Option Nat) (ts now : Nat)
    (dm : Int → Bool) :
    ∀ (ws : List WarningCfg) (rows : List WarningRow), WarnOK rows →
    WarnOK (warnLoop g u r A atid ts now dm ws rows).1 := by
  intro ws
  induction ws with
  | nil =>
    intro rows h
    simpa [warnLoop] using h
  | cons w ws ih =>
    intro rows h
    simp only [warnLoop]
    cases hpo : parseDurationToMs w.offset with
    | none => exact ih rows h
    | some off =>
      dsimp only
      by_cases hel : off ≤ ts
      · rw [if_pos hel]
        by_cases hrecv : hasReceivedWarning rows g u r w.index A atid = true
        · rw [if_pos hrecv]
          exact ih rows h
        · rw [if_neg hrecv]
          by_cases hdm : dm w.index = true
          · rw [if_pos hdm]
            exact ih _ (warnOK_record rows g u r "warning" w.index now A atid h
              (bool_eq_false_of _ hrecv))
          · rw [if_neg hdm]
            exact ih rows h
      · rw [if_neg hel]
        exact ih rows h

theorem sweepStep_warnOK (cfg : RoleTrackingConfig) (g u r : String) (A : Nat)
    (atid : Option Nat) (now : Nat) (pm : Bool) (dm : Int → Bool) (so : Bool)
    (rows : List WarningRow) (h : WarnOK rows) :
    WarnOK (sweepStep cfg g u r A atid now pm dm so rows).1 := by
  by_cases hc : (cfg.conditions.getD []).isEmpty = true
  · rw [sweepStep_noconds cfg g u r A atid now pm dm so rows hc]
    exact h
  · cases hdl : parseDurationToMs cfg.deadlineDuration with
    | none =>
      rw [sweepStep_baddl cfg g u r A atid now pm dm so rows hc hdl]
      exact h
    | some dl =>
      by_cases hTM : ((cfg.conditions.getD []).contains "PATROL" && pm) = true
      · rw [sweepStep_grace cfg g u r A atid now pm dm so rows dl hc hdl hTM]
        exact warnOK_remove rows g u r atid h
      · have hTM2 := bool_eq_false_of _ hTM
        rw [sweepStep_main cfg g u r A atid now pm dm so rows dl hc hdl hTM2]
        have hL := warnLoop_warnOK g u r A atid (now - A) now dm cfg.warnings rows h
        cases hspo : parseDurationToMs cfg.staffPingOffset with
        | none => exact hL
        | some spo =>
          dsimp only
          by_cases hsle : spo ≤ now - A
          · rw [if_pos hsle]
            by_cases hrecv : hasReceivedWarning
                (warnLoop g u r A atid (now - A) now dm cfg.warnings rows).1
                g u r (-1) A atid = true
            · rw [if_pos hrecv]
              exact hL
            · rw [if_neg hrecv]
              exact warnOK_record _ g u r "staff_ping" (-1) now A atid hL
                (bool_eq_false_of _ hrecv)
          · rw [if_neg hsle]
            exact hL

/-- If the sweep sent the staff escalation, the sentinel `-1` row is in
the resulting store (recorded regardless of the channel-send outcome). -/
theorem sweep_ping_recorded (cfg : RoleTrackingConfig) (g u r : String) (A : Nat)
    (atid : Option Nat) (now : Nat) (pm : Bool) (dm : Int → Bool) (so : Bool)
    (rows : List WarningRow)
    (hp : (sweepStep cfg g u r A atid now pm dm so rows).2.2 = true) :
    hasReceivedWarning (sweepStep cfg g u r A atid now pm dm so rows).1
      g u r (-1) A atid = true := by
  by_cases hc : (cfg.conditions.getD []).isEmpty = true
  · rw [sweepStep_noconds cfg g u r A atid now pm dm so rows hc] at hp
    exact absurd hp (by simp)
  · cases hdl : parseDurationToMs cfg.deadlineDuration with
    | none =>
      rw [sweepStep_baddl cfg g u r A atid now pm dm so rows hc hdl] at hp
      exact absurd hp (by simp)
    | some dl =>
      by_cases hTM : ((cfg.conditions.getD []).contains "PATROL" && pm) = true
      · rw [sweepStep_grace cfg g u r A atid now pm dm so rows dl hc hdl hTM] at hp
        exact absurd hp (by simp)
      · have hTM2 := bool_eq_false_of _ hTM
        rw [sweepStep_main cfg g u r A atid now pm dm so rows dl hc hdl hTM2] at hp ⊢
        cases hspo : parseDurationToMs cfg.staffPingOffset with
        | none =>
          rw [hspo] at hp
          dsimp only at hp
          exact absurd hp (by simp)
        | some spo =>
          rw [hspo] at hp
          dsimp only at hp ⊢
          by_cases hsle : spo ≤ now - A
          · rw [if_pos hsle] at hp ⊢
            by_cases hrecv : hasReceivedWarning
                (warnLoop g u r A atid (now - A) now dm cfg.warnings rows).1
                g u r (-1) A atid = true
            · rw [if_pos hrecv] at hp
              exact absurd hp (by simp)
            · rw [if_neg hrecv] at hp ⊢
              exact record_guard_true g u r (-1) "staff_ping" now A atid _
          · rw [if_neg hsle] at hp
            exact absurd hp (by simp)

/-- If the sentinel `-1` row already exists for the assignment, the sweep
does not send the staff escalation again. -/
theorem sweep_ping_skip (cfg : RoleTrackingConfig) (g u r : String) (A : Nat)
    (atid : Option Nat) (now : Nat) (pm : Bool) (dm : Int → Bool) (so : Bool)
    (rows : List WarningRow)
    (hhave : hasReceivedWarning rows g u r (-1) A atid = true) :
    (sweepStep cfg g u r A atid now pm dm so rows).2.2 = false := by
  by_cases hc : (cfg.conditions.getD []).isEmpty = true
  · rw [sweepStep_noconds cfg g u r A atid now pm dm so rows hc]
  · cases hdl : parseDurationToMs cfg.deadlineDuration with
    | none => rw [sweepStep_baddl cfg g u r A atid now pm dm so rows hc hdl]
    | some dl =>
      by_cases hTM : ((cfg.conditions.getD []).contains "PATROL" && pm) = true
      · rw [sweepStep_grace cfg g u r A atid now pm dm so rows dl hc hdl hTM]
      · have hTM2 := bool_eq_false_of _ hTM
        rw [sweepStep_main cfg g u r A atid now pm dm so rows dl hc hdl hTM2]
        have hmono := warnLoop_hasReceived_mono g u r A atid (now - A) now dm
          cfg.warnings rows (-1) hhave
        cases hspo : parseDurationToMs cfg.staffPingOffset with
        | none => rfl
        | some spo =>
          dsimp only
          by_cases hsle : spo ≤ now - A
          · rw [if_pos hsle, if_pos hmono]
          · rw [if_neg hsle]

/-- C4: running the sweep twice in succession with no intervening events
(same subject, role, assignment date and assignment id) preserves
at-most-one Warning row per dedup key — per (group, subject, role, index,
assignment id), with legacy id-less rows scoped by assignment timestamp —
and never sends the terminal staff escalation twice. -/
theorem claim_C4_sweep_idempotent (cfg1 cfg2 : RoleTrackingConfig) (g u r : String)
    (A : Nat) (atid : Option Nat) (now1 now2 : Nat) (pm1 pm2 : Bool)
    (dm1 dm2 : Int → Bool) (so1 so2 : Bool) (rows : List WarningRow)
    (h : WarnOK rows) :
    WarnOK (sweepStep cfg1 g u r A atid now1 pm1 dm1 so1 rows).1
    ∧ WarnOK (sweepStep cfg2 g u r A atid now2 pm2 dm2 so2
        (sweepStep cfg1 g u r A atid now1 pm1 dm1 so1 rows).1).1
    ∧ ¬ ((sweepStep cfg1 g u r A atid now1 pm1 dm1 so1 rows).2.2 = true
        ∧ (sweepStep cfg2 g u r A atid now2 pm2 dm2 so2
            (sweepStep cfg1 g u r A atid now1 pm1 dm1 so1 rows).1).2.2 = true) := by
  refine ⟨sweepStep_warnOK cfg1 g u r A atid now1 pm1 dm1 so1 rows h,
    sweepStep_warnOK cfg2 g u r A atid now2 pm2 dm2 so2 _
      (sweepStep_warnOK cfg1 g u r A atid now1 pm1 dm1 so1 rows h), ?_⟩
  rintro ⟨hp1, hp2⟩
  have hrecv := sweep_ping_recorded cfg1 g u r A atid now1 pm1 dm1 so1 rows hp1
  have hskip := sweep_ping_skip cfg2 g u r A atid now2 pm2 dm2 so2 _ hrecv
  rw [hskip] at hp2
  exact Bool.false_ne_true hp2

theorem warnOK_nil : WarnOK [] :=
  ⟨fun _ _ _ _ _ => by simp, fun _ _ _ _ _ => by simp⟩

theorem sweepStep_sent (cfg : RoleTrackingConfig) (g u r : String) (A : Nat)
    (atid : Option Nat) (now : Nat) (pm : Bool) (dm : Int → Bool) (so : Bool)
    (rows : List WarningRow) (dl : Nat)
    (hc : ¬ ((cfg.conditions.getD []).isEmpty = true))
    (hdl : parseDurationToMs cfg.deadlineDuration = some dl)
    (hTM : ((cfg.conditions.getD []).contains "PATROL" && pm) = false) :
    (sweepStep cfg g u r A atid now pm dm so rows).2.1
      = (warnLoop g u r A atid (now - A) now dm cfg.warnings rows).2 := by
  rw [sweepStep_main cfg g u r A atid now pm dm so rows dl hc hdl hTM]
  cases hspo : parseDurationToMs cfg.staffPingOffset with
  | none => rfl
  | some spo =>
    dsimp only
    by_cases hsle : spo ≤ now - A
    · rw [if_pos hsle]
      by_cases hrecv : hasReceivedWarning
          (warnLoop g u r A atid (now - A) now dm cfg.warnings rows).1
          g u r (-1) A atid = true
      · rw [if_pos hrecv]
      · rw [if_neg hrecv]
    · rw [if_neg hsle]

theorem sweepStep_countP_guard (cfg : RoleTrackingConfig) (g u r : String) (A : Nat)
    (atid : Option Nat) (now : Nat) (pm : Bool) (dm : Int → Bool) (so : Bool)
    (rows : List WarningRow) (dl : Nat) (i : Int)
    (hc : ¬ ((cfg.conditions.getD []).isEmpty = true))
    (hdl : parseDurationToMs cfg.deadlineDuration = some dl)
    (hTM : ((cfg.conditions.getD []).contains "PATROL" && pm) = false)
    (hne : i ≠ -1) :
    (sweepStep cfg g u r A atid now pm dm so rows).1.countP (warnGuard g u r i A atid)
      = (warnLoop g u r A atid (now - A) now dm cfg.warnings rows).1.countP
          (warnGuard g u r i A atid) := by
  rw [sweepStep_main cfg g u r A atid now pm dm so rows dl hc hdl hTM]
  cases hspo : parseDurationToMs cfg.staffPingOffset with
  | none => rfl
  | some spo =>
    dsimp only
    by_cases hsle : spo ≤ now - A
    · rw [if_pos hsle]
      by_cases hrecv : hasReceivedWarning
          (warnLoop g u r A atid (now - A) now dm cfg.warnings rows).1
          g u r (-1) A atid = true
      · rw [if_pos hrecv]
      · rw [if_neg hrecv]
        show (recordWarningSent _ g u r "staff_ping" (-1) now A atid).countP _ = _
        unfold recordWarningSent
        rw [List.countP_append]
        have hping := warnGuard_record_ne g u r i (-1) A atid "staff_ping" now A
          (if truthyId atid then atid else none) (fun he => hne he.symm)
        simp [List.countP_cons, hping]
    · rw [if_neg hsle]

theorem warnLoop_retry (g u r : String) (A : Nat) (atid : Option Nat) (ts now : Nat)
    (dm : Int → Bool) (i : Int) (hdm : dm i = false) :
    ∀ (ws : List WarningCfg) (rows : List WarningRow),
    rows.countP (warnGuard g u r i A atid) = 0 →
    (warnLoop g u r A atid ts now dm ws rows).1.countP (warnGuard g u r i A atid) = 0
    ∧ ∀ w ∈ ws, w.index = i → ∀ off, parseDurationToMs w.offset = some off →
        off ≤ ts → i ∈ (warnLoop g u r A atid ts now dm ws rows).2 := by
  intro ws
  induction ws with
  | nil =>
    intro rows h0
    exact ⟨by simpa [warnLoop] using h0, fun w hw => absurd hw (List.not_mem_nil w)⟩
  | cons w0 ws ih =>
    intro rows h0
    simp only [warnLoop]
    cases hpo : parseDurationToMs w0.offset with
    | none =>
      obtain ⟨ihc, ihm⟩ := ih rows h0
      refine ⟨ihc, ?_⟩
      intro w2 hw2 hidx off hoff hoffle
      rcases List.mem_cons.mp hw2 with he | ht2
      · subst he
        rw [hpo] at hoff
        exact Option.noConfusion hoff
      · exact ihm w2 ht2 hidx off hoff hoffle
    | some off0 =>
      dsimp only
      by_cases hel : off0 ≤ ts
      · rw [if_pos hel]
        by_cases hrecv : hasReceivedWarning rows g u r w0.index A atid = true
        · rw [if_pos hrecv]
          obtain ⟨ihc, ihm⟩ := ih rows h0
          refine ⟨ihc, ?_⟩
          intro w2 hw2 hidx off hoff hoffle
          rcases List.mem_cons.mp hw2 with he | ht2
          · exfalso
            subst he
            rw [hasReceived_eq_any, hidx, any_false_of_countP_zero h0] at hrecv
            exact Bool.false_ne_true hrecv
          · exact ihm w2 ht2 hidx off hoff hoffle
        · rw [if_neg hrecv]
          have h1 : (if dm w0.index = true then
              recordWarningSent rows g u r "warning" w0.index now A atid
            else rows).countP (warnGuard g u r i A atid) = 0 := by
            by_cases hdmw : dm w0.index = true
            · have hne : w0.index ≠ i := by
                intro he2
                rw [he2, hdm] at hdmw
                exact Bool.false_ne_true hdmw
              rw [if_pos hdmw]
              unfold recordWarningSent
              rw [List.countP_append, h0]
              have hg0 := warnGuard_record_ne g u r i w0.index A atid "warning" now A
                (if truthyId atid then atid else none) hne
              simp [List.countP_cons, hg0]
            · rw [if_neg hdmw]
              exact h0
          obtain ⟨ihc, ihm⟩ := ih _ h1
          refine ⟨ihc, ?_⟩
          intro w2 hw2 hidx off hoff hoffle
          rcases List.mem_cons.mp hw2 with he | ht2
          · subst he
            rw [← hidx]
            exact List.mem_cons_self _ _
          · exact List.mem_cons_of_mem _ (ihm w2 ht2 hidx off hoff hoffle)
      · rw [if_neg hel]
        obtain ⟨ihc, ihm⟩ := ih rows h0
        refine ⟨ihc, ?_⟩
        intro w2 hw2 hidx off hoff hoffle
        rcases List.mem_cons.mp hw2 with he | ht2
        · exfalso
          subst he
          rw [hpo] at hoff
          have : off0 = off := Option.some.inj hoff
          omega
        · exact ihm w2 ht2 hidx off hoff hoffle

theorem warnLoop_attempt (g u r : String) (A : Nat) (atid : Option Nat) (ts now : Nat)
    (dm : Int → Bool) (i : Int) :
    ∀ (ws : List WarningCfg) (rows : List WarningRow),
    rows.countP (warnGuard g u r i A atid) = 0 →
    ∀ w ∈ ws, w.index = i → ∀ off, parseDurationToMs w.offset = some off →
    off ≤ ts → i ∈ (warnLoop g u r A atid ts now dm ws rows).2 := by
  intro ws
  induction ws with
  | nil =>
    intro rows h0 w hw
    exact absurd hw (List.not_mem_nil w)
  | cons w0 ws ih =>
    intro rows h0 w hw hidx off hoff hoffle
    simp only [warnLoop]
    cases hpo : parseDurationToMs w0.offset with
    | none =>
      rcases List.mem_cons.mp hw with he | ht2
      · subst he
        rw [hpo] at hoff
        exact Option.noConfusion hoff
      · exact ih rows h0 w ht2 hidx off hoff hoffle
    | some off0 =>
      dsimp only
      by_cases hel : off0 ≤ ts
      · rw [if_pos hel]
        by_cases hrecv : hasReceivedWarning rows g u r w0.index A atid = true
        · rw [if_pos hrecv]
          rcases List.mem_cons.mp hw with he | ht2
          · exfalso
            subst he
            rw [hasReceived_eq_any, hidx, any_false_of_countP_zero h0] at hrecv
            exact Bool.false_ne_true hrecv
          · exact ih rows h0 w ht2 hidx off hoff hoffle
        · rw [if_neg hrecv]
          by_cases hw0 : w0.index = i
          · rw [← hw0]
            exact List.mem_cons_self _ _
          · have h1 : (if dm w0.index = true then
                recordWarningSent rows g u r "warning" w0.index now A atid
              else rows).countP (warnGuard g u r i A atid) = 0 := by
              by_cases hdmw : dm w0.index = true
              · rw [if_pos hdmw]
                unfold recordWarningSent
                rw [List.countP_append, h0]
                have hg0 := warnGuard_record_ne g u r i w0.index A atid "warning" now A
                  (if truthyId atid then atid else none) hw0
                simp [List.countP_cons, hg0]
              · rw [if_neg hdmw]
                exact h0
            rcases List.mem_cons.mp hw with he | ht2
            · exfalso
              subst he
              exact hw0 hidx
            · exact List.mem_cons_of_mem _ (ih _ h1 w ht2 hidx off hoff hoffle)
      · rw [if_neg hel]
        rcases List.mem_cons.mp hw with he | ht2
        · exfalso
          subst he
          rw [hpo] at hoff
          have : off0 = off := Option.some.inj hoff
          omega
        · exact ih rows h0 w ht2 hidx off hoff hoffle

/-- C2 counterexample: with the staff-ping offset elapsed and both the DM
and the channel send failing, the sweep still records the sentinel `-1`
Warning row for the escalation, so a failed escalation delivery is not
retried — contradicting the claim that no Warning row is written on
delivery failure. -/
theorem claim_C2_counterexample :
    (sweepStep cfgC2 "g" "u" "r" 0 (some 1) (8 * msPerDay) false dmFailAll false []).1
      = [⟨"g", "u", "r", "staff_ping", -1, 8 * msPerDay, 0, some 1⟩]
    ∧ (sweepStep cfgC2 "g" "u" "r" 0 (some 1) (8 * msPerDay) false dmFailAll false
        []).2.2 = true := by
  constructor
  · decide
  · decide

/-- C2 (amended): for every per-user warning, a failed DM leaves the store
without a row for that (group, subject, role, index, assignment id) key,
the warning is attempted in this sweep and attempted again on the next
sweep (at-least-once); the terminal staff escalation however records its
sentinel row whenever it is sent, regardless of the channel-send outcome
(at-most-once, no retry on failed delivery). -/
theorem claim_C2_failed_delivery_amended :
    (∀ (cfg : RoleTrackingConfig) (g u r : String) (A : Nat) (atid : Option Nat)
        (now : Nat) (pm : Bool) (dm : Int → Bool) (so : Bool)
        (rows : List WarningRow) (w : WarningCfg) (off dl : Nat),
      ¬ ((cfg.conditions.getD []).isEmpty = true) →
      parseDurationToMs cfg.deadlineDuration = some dl →
      ((cfg.conditions.getD []).contains "PATROL" && pm) = false →
      w ∈ cfg.warnings → w.index ≠ -1 → dm w.index = false →
      parseDurationToMs w.offset = some off → off ≤ now - A →
      rows.countP (warnGuard g u r w.index A atid) = 0 →
      w.index ∈ (sweepStep cfg g u r A atid now pm dm so rows).2.1
      ∧ (sweepStep cfg g u r A atid now pm dm so rows).1.countP
          (warnGuard g u r w.index A atid) = 0
      ∧ ∀ (dm2 : Int → Bool) (so2 : Bool),
          w.index ∈ (sweepStep cfg g u r A atid now pm dm2 so2
            (sweepStep cfg g u r A atid now pm dm so rows).1).2.1)
    ∧ (∀ (cfg : RoleTrackingConfig) (g u r : String) (A : Nat) (atid : Option Nat)
        (now : Nat) (pm : Bool) (dm : Int → Bool) (so : Bool)
        (rows : List WarningRow),
      (sweepStep cfg g u r A atid now pm dm so rows).2.2 = true →
      hasReceivedWarning (sweepStep cfg g u r A atid now pm dm so rows).1
        g u r (-1) A atid = true) := by
  constructor
  · intro cfg g u r A atid now pm dm so rows w off dl hc hdl hTM hw hne hdm hoff
      hoffle h0
    obtain ⟨hcnt, hmem⟩ := warnLoop_retry g u r A atid (now - A) now dm w.index hdm
      cfg.warnings rows h0
    have hb : (sweepStep cfg g u r A atid now pm dm so rows).1.countP
        (warnGuard g u r w.index A atid) = 0 := by
      rw [sweepStep_countP_guard cfg g u r A atid now pm dm so rows dl w.index
        hc hdl hTM hne]
      exact hcnt
    refine ⟨?_, hb, ?_⟩
    · rw [sweepStep_sent cfg g u r A atid now pm dm so rows dl hc hdl hTM]
      exact hmem w hw rfl off hoff hoffle
    · intro dm2 so2
      rw [sweepStep_sent cfg g u r A atid now pm dm2 so2 _ dl hc hdl hTM]
      exact warnLoop_attempt g u r A atid (now - A) now dm2 w.index cfg.warnings
        _ hb w hw rfl off hoff hoffle
  · intro cfg g u r A atid now pm dm so rows hp
    exact sweep_ping_recorded cfg g u r A atid now pm dm so rows hp

theorem claim_C2_failed_delivery_amended_witness :
    (0 : Int) ∈ (sweepStep cfgC2 "g" "u" "r" 0 (some 1) (8 * msPerDay) false
        dmFailAll false []).2.1
    ∧ (sweepStep cfgC2 "g" "u" "r" 0 (some 1) (8 * msPerDay) false dmFailAll false
        []).1.countP (warnGuard "g" "u" "r" 0 0 (some 1)) = 0
    ∧ (0 : Int) ∈ (sweepStep cfgC2 "g" "u" "r" 0 (some 1) (8 * msPerDay) false
        dmFailAll false
        (sweepStep cfgC2 "g" "u" "r" 0 (some 1) (8 * msPerDay) false dmFailAll false
          []).1).2.1 := by
  have h := claim_C2_failed_delivery_amended.1 cfgC2 "g" "u" "r" 0 (some 1)
    (8 * msPerDay) false dmFailAll false [] ⟨0, "1 week", "warning message"⟩
    (7 * 24 * 60 * 60 * 1000) (14 * 24 * 60 * 60 * 1000)
    (by decide) (by decide) (by decide) (by decide) (by decide) (by decide)
    (by decide) (by decide) (by decide)
  exact ⟨h.1, h.2.1, h.2.2 dmFailAll false⟩

theorem claim_C4_sweep_idempotent_witness :
    WarnOK (sweepStep cfgC2 "g" "u" "r" 0 (some 1) (8 * msPerDay) false dmFailAll
      false []).1
    ∧ WarnOK (sweepStep cfgC2 "g" "u" "r" 0 (some 1) (9 * msPerDay) false dmFailAll
        false (sweepStep cfgC2 "g" "u" "r" 0 (some 1) (8 * msPerDay) false dmFailAll
          false []).1).1
    ∧ ¬ ((sweepStep cfgC2 "g" "u" "r" 0 (some 1) (8 * msPerDay) false dmFailAll
          false []).2.2 = true
        ∧ (sweepStep cfgC2 "g" "u" "r" 0 (some 1) (9 * msPerDay) false dmFailAll
            false (sweepStep cfgC2 "g" "u" "r" 0 (some 1) (8 * msPerDay) false
              dmFailAll false []).1).2.2 = true) :=
  claim_C4_sweep_idempotent cfgC2 cfgC2 "g" "u" "r" 0 (some 1) (8 * msPerDay)
    (9 * msPerDay) false false dmFailAll dmFailAll false false [] warnOK_nil

/-! ## Validation lemmas and claims -/
theorem valid_eq_isEmpty (cfg : RoleTrackingConfig) :
    (validateRoleTrackingConfig cfg).valid
      = ((validateRoleTrackingConfig cfg).errors).isEmpty := rfl

theorem errors_eq (cfg : RoleTrackingConfig) :
    (validateRoleTrackingConfig cfg).errors
      = condErrors cfg ++ deadlineErrors cfg ++ staffOffsetErrors cfg
        ++ thresholdErrors cfg ++ warnListErrors cfg ++ ascendErrors cfg
        ++ staffVsDeadlineErrors cfg := rfl

theorem valid_false_of_mem (cfg : RoleTrackingConfig) (msg : String)
    (h : msg ∈ (validateRoleTrackingConfig cfg).errors) :
    (validateRoleTrackingConfig cfg).valid = false := by
  rw [valid_eq_isEmpty]
  apply bool_eq_false_of
  intro ht
  rw [List.isEmpty_iff.mp ht] at h
  exact List.not_mem_nil msg h

theorem mem_errors_of_cond (cfg : RoleTrackingConfig) (msg : String)
    (h : msg ∈ condErrors cfg) : msg ∈ (validateRoleTrackingConfig cfg).errors := by
  rw [errors_eq]
  simp only [List.mem_append]
  tauto

theorem mem_errors_of_deadline (cfg : RoleTrackingConfig) (msg : String)
    (h : msg ∈ deadlineErrors cfg) : msg ∈ (validateRoleTrackingConfig cfg).errors := by
  rw [errors_eq]
  simp only [List.mem_append]
  tauto

theorem mem_errors_of_warnList (cfg : RoleTrackingConfig) (msg : String)
    (h : msg ∈ warnListErrors cfg) : msg ∈ (validateRoleTrackingConfig cfg).errors := by
  rw [errors_eq]
  simp only [List.mem_append]
  tauto

theorem mem_errors_of_ascend (cfg : RoleTrackingConfig) (msg : String)
    (h : msg ∈ ascendErrors cfg) : msg ∈ (validateRoleTrackingConfig cfg).errors := by
  rw [errors_eq]
  simp only [List.mem_append]
  tauto

theorem ascErrAux_mem :
    ∀ (l : List Nat) (j i a b : Nat), l.get? j = some a → l.get? (j + 1) = some b →
    b < a →
    ("Warning offsets must be in ascending order. Offset at index "
      ++ toString (i + j + 1) ++ " is before offset at index " ++ toString (i + j))
      ∈ ascErrAux i l := by
  intro l
  induction l with
  | nil =>
    intro j i a b ha
    simp at ha
  | cons x ys ih =>
    intro j i a b ha hb hlt
    cases ys with
    | nil =>
      cases j with
      | zero => simp at hb
      | succ k => simp at ha
    | cons y rest =>
      cases j with
      | zero =>
        simp only [List.get?] at ha hb
        have hxa : x = a := Option.some.inj ha
        have hyb : y = b := Option.some.inj hb
        subst hxa; subst hyb
        simp only [ascErrAux, Nat.add_zero]
        rw [if_pos hlt]
        exact List.mem_append_left _ (List.mem_singleton.mpr rfl)
      | succ k =>
        simp only [List.get?] at ha hb
        have hrec := ih k (i + 1) a b ha hb hlt
        have harith1 : i + 1 + k = i + (k + 1) := by omega
        rw [harith1] at hrec
        simp only [ascErrAux]
        exact List.mem_append_right _ hrec

theorem ascErrAux_nil_of_chain :
    ∀ (l : List Nat) (i : Nat), List.Chain' (· ≤ ·) l → ascErrAux i l = [] := by
  intro l
  induction l with
  | nil => intro i _; rfl
  | cons x ys ih =>
    intro i hc
    cases ys with
    | nil => rfl
    | cons y rest =>
      obtain ⟨hxy, hc2⟩ := List.chain'_cons.mp hc
      simp only [ascErrAux]
      rw [if_neg (by omega), List.nil_append]
      exact ih (i + 1) hc2

theorem warnList_nil_aux (cfg : RoleTrackingConfig) :
    ∀ l : List (Nat × WarningCfg),
    (∀ p ∈ l, warnEntryErrors cfg p.1 p.2 = []) →
    ((l.map (fun p => warnEntryErrors cfg p.1 p.2)).flatten) = [] := by
  intro l
  induction l with
  | nil => intro _; rfl
  | cons p ps ih =>
    intro h
    simp only [List.map_cons, List.flatten_cons]
    rw [h p (List.mem_cons_self p ps), List.nil_append]
    exact ih (fun q hq => h q (List.mem_cons_of_mem p hq))

/-- C7 counterexample: `cfgC7bad` has a parseable deadline, no warnings
(hence no exceeding or non-ascending offsets), and no PATROL condition,
yet validation rejects it — the claimed acceptance of configurations free
of the four listed defects is false. -/
theorem claim_C7_counterexample :
    isValidDuration cfgC7bad.deadlineDuration = true
    ∧ cfgC7bad.warnings = []
    ∧ cfgC7bad.conditions = some ["TIME"]
    ∧ (validateRoleTrackingConfig cfgC7bad).valid = false := by
  refine ⟨by decide, rfl, rfl, ?_⟩
  decide

/-- C7 (amended): validation is pure (no write) and rejects each of the
four defects with its distinct message in the error list — unparseable
deadline, a warning offset exceeding the deadline, PATROL with no
threshold, an adjacent pair of decreasing warning offsets — and a
configuration with none of these that moreover has a parseable staff-ping
offset not exceeding the deadline, conditions drawn from PATROL/TIME, a
nonnegative threshold, and warning indexes equal to their array
positions, is accepted with an empty error list. -/
theorem claim_C7_validation_amended :
    (∀ cfg : RoleTrackingConfig, isValidDuration cfg.deadlineDuration = false →
      ("Invalid deadlineDuration: \"" ++ cfg.deadlineDuration ++ "\"")
          ∈ (validateRoleTrackingConfig cfg).errors
        ∧ (validateRoleTrackingConfig cfg).valid = false)
    ∧ (∀ (cfg : RoleTrackingConfig) (i : Nat) (w : WarningCfg) (off dl : Nat),
        (i, w) ∈ cfg.warnings.enum →
        parseDurationToMs w.offset = some off →
        parseDurationToMs cfg.deadlineDuration = some dl → dl < off →
        ("Warning offset \"" ++ w.offset ++ "\" at index " ++ toString i
            ++ " exceeds deadlineDuration \"" ++ cfg.deadlineDuration ++ "\"")
            ∈ (validateRoleTrackingConfig cfg).errors
          ∧ (validateRoleTrackingConfig cfg).valid = false)
    ∧ (∀ (cfg : RoleTrackingConfig) (conds : List String),
        cfg.conditions = some conds → conds.contains "PATROL" = true →
        cfg.patrolTimeThresholdHours = none →
        "patrolTimeThresholdHours must be set when using PATROL condition"
            ∈ (validateRoleTrackingConfig cfg).errors
          ∧ (validateRoleTrackingConfig cfg).valid = false)
    ∧ (∀ (cfg : RoleTrackingConfig) (j a b : Nat),
        (warningOffsets cfg).get? j = some a →
        (warningOffsets cfg).get? (j + 1) = some b → b < a →
        ("Warning offsets must be in ascending order. Offset at index "
            ++ toString (j + 1) ++ " is before offset at index " ++ toString j)
            ∈ (validateRoleTrackingConfig cfg).errors
          ∧ (validateRoleTrackingConfig cfg).valid = false)
    ∧ (∀ (cfg : RoleTrackingConfig) (dl sp : Nat),
        parseDurationToMs cfg.deadlineDuration = some dl →
        parseDurationToMs cfg.staffPingOffset = some sp → sp ≤ dl →
        (∀ c ∈ cfg.conditions.getD [], c = "PATROL" ∨ c = "TIME") →
        ((cfg.conditions.getD []).contains "PATROL" = true →
          cfg.patrolTimeThresholdHours ≠ none) →
        0 ≤ cfg.patrolTimeThresholdHours.getD 0 →
        (∀ p ∈ cfg.warnings.enum, isValidDuration (Prod.snd p).offset = true
          ∧ (parseDurationToMs (Prod.snd p).offset).getD 0 ≤ dl
          ∧ (Prod.snd p).index = ((Prod.fst p : Nat) : Int)) →
        List.Chain' (· ≤ ·) (warningOffsets cfg) →
        validateRoleTrackingConfig cfg = ⟨true, []⟩) := by
  refine ⟨?_, ?_, ?_, ?_, ?_⟩
  · intro cfg h
    have hmem : ("Invalid deadlineDuration: \"" ++ cfg.deadlineDuration ++ "\"")
        ∈ deadlineErrors cfg := by
      unfold deadlineErrors
      rw [if_pos (by simp [h])]
      exact List.mem_append_left _ (List.mem_singleton.mpr rfl)
    exact ⟨mem_errors_of_deadline cfg _ hmem,
      valid_false_of_mem cfg _ (mem_errors_of_deadline cfg _ hmem)⟩
  · intro cfg i w off dl hmemw hoff hdl hlt
    have hentry : ("Warning offset \"" ++ w.offset ++ "\" at index " ++ toString i
        ++ " exceeds deadlineDuration \"" ++ cfg.deadlineDuration ++ "\"")
        ∈ warnEntryErrors cfg i w := by
      unfold warnEntryErrors
      have hvalid : ¬ (¬ isValidDuration w.offset = true) := by
        simp [isValidDuration, hoff]
      rw [if_neg hvalid, hoff, hdl]
      dsimp only
      rw [if_pos hlt]
      exact List.mem_append_left _ (List.mem_singleton.mpr rfl)
    have hmem : ("Warning offset \"" ++ w.offset ++ "\" at index " ++ toString i
        ++ " exceeds deadlineDuration \"" ++ cfg.deadlineDuration ++ "\"")
        ∈ warnListErrors cfg := by
      unfold warnListErrors
      rw [List.mem_flatten]
      exact ⟨warnEntryErrors cfg i w,
        List.mem_map.mpr ⟨(i, w), hmemw, rfl⟩, hentry⟩
    exact ⟨mem_errors_of_warnList cfg _ hmem,
      valid_false_of_mem cfg _ (mem_errors_of_warnList cfg _ hmem)⟩
  · intro cfg conds hconds hpat hthr
    have hne : conds.isEmpty = false := by
      cases conds with
      | nil => simp at hpat
      | cons c cs => rfl
    have hmem : "patrolTimeThresholdHours must be set when using PATROL condition"
        ∈ condErrors cfg := by
      unfold condErrors
      rw [hconds]
      dsimp only
      rw [if_neg (by simp [hne])]
      apply List.mem_append_right
      rw [if_pos ⟨hpat, hthr⟩]
      exact List.mem_singleton.mpr rfl
    exact ⟨mem_errors_of_cond cfg _ hmem,
      valid_false_of_mem cfg _ (mem_errors_of_cond cfg _ hmem)⟩
  · intro cfg j a b ha hb hlt
    have hmem : ("Warning offsets must be in ascending order. Offset at index "
        ++ toString (j + 1) ++ " is before offset at index " ++ toString j)
        ∈ ascendErrors cfg := by
      unfold ascendErrors
      have := ascErrAux_mem (warningOffsets cfg) j 0 a b ha hb hlt
      simpa using this
    exact ⟨mem_errors_of_ascend cfg _ hmem,
      valid_false_of_mem cfg _ (mem_errors_of_ascend cfg _ hmem)⟩
  · intro cfg dl sp hdl hsp hsple hcondsok hpatok hthrok hwarnok hchain
    have hcond : condErrors cfg = [] := by
      unfold condErrors
      cases hcs : cfg.conditions with
      | none => rfl
      | some conds =>
        dsimp only
        by_cases hemp : conds.isEmpty = true
        · rw [if_pos hemp]
        · rw [if_neg hemp]
          have hfm : conds.filterMap (fun c =>
              if c = "PATROL" ∨ c = "TIME" then none
              else some ("Invalid condition: \"" ++ c
                ++ "\". Must be one of: PATROL, TIME")) = [] := by
            rw [List.filterMap_eq_nil]
            intro c hc
            rw [if_pos]
            have := hcondsok c (by rw [hcs]; exact hc)
            exact this
          rw [hfm, List.nil_append]
          rw [if_neg]
          intro hand
          obtain ⟨hcont, hthrnone⟩ := hand
          exact (hpatok (by rw [hcs]; exact hcont)) hthrnone
    have hdle : deadlineErrors cfg = [] := by
      unfold deadlineErrors
      rw [if_neg (by simp [isValidDuration, hdl]), if_neg (by simp [hdl])]
      rfl
    have hsoe : staffOffsetErrors cfg = [] := by
      unfold staffOffsetErrors
      rw [if_neg (by simp [isValidDuration, hsp]), if_neg (by simp [hsp])]
      rfl
    have hthre : thresholdErrors cfg = [] := by
      unfold thresholdErrors
      cases hth : cfg.patrolTimeThresholdHours with
      | none => rfl
      | some t =>
        dsimp only
        rw [if_neg]
        rw [hth] at hthrok
        simp only [Option.getD_some] at hthrok
        omega
    have hwle : warnListErrors cfg = [] := by
      apply warnList_nil_aux
      intro p hp
      obtain ⟨hv, hle, hidx⟩ := hwarnok p hp
      unfold warnEntryErrors
      rw [if_neg (by simp [hv])]
      cases hpo : parseDurationToMs p.2.offset with
      | none => simp [isValidDuration, hpo] at hv
      | some off =>
        rw [hdl]
        dsimp only
        rw [hpo] at hle
        simp only [Option.getD_some] at hle
        rw [if_neg (by omega), if_neg (by simp [hidx])]
        rfl
    have hasc : ascendErrors cfg = [] :=
      ascErrAux_nil_of_chain (warningOffsets cfg) 0 hchain
    have hsvd : staffVsDeadlineErrors cfg = [] := by
      unfold staffVsDeadlineErrors
      rw [hdl, hsp]
      dsimp only
      rw [if_neg (by omega)]
    have hE : (validateRoleTrackingConfig cfg).errors = [] := by
      rw [errors_eq, hcond, hdle, hsoe, hthre, hwle, hasc, hsvd]
      rfl
    have hv : (validateRoleTrackingConfig cfg).valid = true := by
      rw [valid_eq_isEmpty, hE]
      rfl
    have hsplit : validateRoleTrackingConfig cfg
        = ⟨(validateRoleTrackingConfig cfg).valid,
           (validateRoleTrackingConfig cfg).errors⟩ := rfl
    rw [hsplit, hv, hE]

theorem claim_C7_validation_amended_witness :
    validateRoleTrackingConfig cfgC7good = ⟨true, []⟩ :=
  claim_C7_validation_amended.2.2.2.2 cfgC7good (14 * 24 * 60 * 60 * 1000)
    (7 * 24 * 60 * 60 * 1000) (by decide) (by decide) (by decide) (by decide)
    (by decide) (by decide) (by decide)
    (by
      have h : warningOffsets cfgC7good = [604800000] := by decide
      rw [h]
      exact List.chain'_singleton _)

end ShieldBot
